import Mathlib

/-!
pydro: the correlation kernel `detect` of `src/pydro/_detection.c`.

A shallow embedding of the C function `detect` and of the parts of NumPy and
BLAS it calls, followed by theorems about it.

Conventions of the embedding.

* A NumPy array is its header (`nd`, `dimensions`, `strides`, `type_num`) and
  the memory reachable from its data pointer, a map from byte offsets to the
  element stored at that offset.  `PyArray_GETPTR2` and `PyArray_GETPTR3`
  compute byte offsets exactly as the NumPy macros do.
* The memory of the array that `detect` allocates is the log of the writes
  made to it (`Mem`), newest first; `load` returns the newest value written at
  an offset.  Every write is recorded at the offset the C code computes,
  whether or not that offset lies inside the allocated block.
* The element type `α` and its operations stand for C `float`.  The
  definitions only use `+`, `*`, unary `-`, the literal `2` and the test
  `alpha == 0` of the BLAS routine; theorems stated "in exact arithmetic"
  take `α` to be a commutative ring.  `Single` is the arithmetic of C
  `float` itself (IEEE 754 binary32) on integer values, infinities and NaN.
* `PyArray_DIMS` and `PyArray_STRIDES` are total maps from the axis number;
  `detect` only uses the entries of axes `0..2` of its inputs.  For an array
  without axes (`nd = 0`) NumPy's `PyArray_DIMS` is `NULL`: reading an entry
  of it ends the process, which `detect` records as `crashed`.
* C integers (`int`, `npy_intp`) are unbounded integers: extents and loop
  counters are taken to fit their C types.  C's `/` on `npy_intp` is
  `Int.tdiv` (truncation toward zero).  The one mixed-sign expression,
  `features_stride[1]/sizeof(float)`, divides after conversion to `size_t`
  and narrows the quotient to `int`; with 64-bit `npy_intp` and `size_t`, a
  32-bit `int` and strides of magnitude below `2^33` this is the floor
  division `/` used here.
* A C loop `for (v = lo; v < hi; ++v)` is `forLoop lo hi`.
* The writes to the score map are the entries of the log (`detect_writes`);
  the reads of the filter and of the features made by the accumulation are
  listed, with their byte offsets, by `accumulate_reads`, which runs the same
  loops as `accumulate`.
-/

namespace Pydro

/-! ## NumPy arrays -/

/-- The type number of C `float` in NumPy's `NPY_TYPES` enumeration. -/
def NPY_FLOAT : Nat := 11

/-- The type number of C `double` in NumPy's `NPY_TYPES` enumeration. -/
def NPY_DOUBLE : Nat := 12

/-- The value of `sizeof(float)`. -/
def sizeof_float : Int := 4

/-- The fields of a NumPy array object that `detect` reads: `PyArray_NDIM`,
`PyArray_DIMS`, `PyArray_STRIDES` (in bytes), `PyArray_DESCR(..)->type_num`,
and the memory behind `PyArray_DATA`, indexed by byte offset. -/
structure PyArrayObject (α : Type) where
  nd : Nat
  dimensions : Nat → Nat
  strides : Nat → Int
  type_num : Nat
  data : Int → α

/-- The macro `PyArray_GETPTR2(obj, i, j)`, as a byte offset from the data pointer. -/
def PyArray_GETPTR2 {α : Type} (obj : PyArrayObject α) (i j : Int) : Int :=
  i * obj.strides 0 + j * obj.strides 1

/-- The macro `PyArray_GETPTR3(obj, i, j, k)`, as a byte offset from the data pointer. -/
def PyArray_GETPTR3 {α : Type} (obj : PyArrayObject α) (i j k : Int) : Int :=
  i * obj.strides 0 + j * obj.strides 1 + k * obj.strides 2

/-- The logical element `A[i, j]` of a two-dimensional array. -/
def PyArrayObject.get2 {α : Type} (A : PyArrayObject α) (i j : Int) : α :=
  A.data (PyArray_GETPTR2 A i j)

/-- The logical element `A[i, j, k]` of a three-dimensional array. -/
def PyArrayObject.get3 {α : Type} (A : PyArrayObject α) (i j k : Int) : α :=
  A.data (PyArray_GETPTR3 A i j k)

/-! ## Memory under construction -/

/-- The memory of a freshly allocated array: the writes made so far, newest
first, each with its byte offset. -/
abbrev Mem (α : Type) : Type := List (Int × α)

/-- Writing `v` at byte offset `p`: the C assignment `*(float*)p = v`. -/
def store {α : Type} (mem : Mem α) (p : Int) (v : α) : Mem α :=
  (p, v) :: mem

/-- Reading the `float` at byte offset `q`: the newest value written there, or
an arbitrary fixed element when nothing was written (uninitialised memory). -/
def load {α : Type} [Inhabited α] : Mem α → Int → α
  | [], _ => default
  | (p, v) :: rest, q => if q = p then v else load rest q

/-- The call `PyArray_SimpleNew(2, dims, NPY_FLOAT)`, taken to succeed: the
header of a fresh C-contiguous array of `float` with extents `d0`, `d1`, whose
memory has not been written. -/
def PyArray_SimpleNew2 {α : Type} [Inhabited α] (d0 d1 : Nat) : PyArrayObject α where
  nd := 2
  dimensions := fun n => if n = 0 then d0 else d1
  strides := fun n => if n = 0 then (d1 : Int) * sizeof_float else sizeof_float
  type_num := NPY_FLOAT
  data := load []

/-- A dense row-major (C-contiguous) `float` array of extents `d0 x d1 x d2`
holding the logical elements `f i j k`. -/
def denseArray3 {α : Type} (d0 d1 d2 : Nat) (f : Int → Int → Int → α) : PyArrayObject α where
  nd := 3
  dimensions := fun n => if n = 0 then d0 else if n = 1 then d1 else d2
  strides := fun n =>
    if n = 0 then (d1 : Int) * d2 * sizeof_float
    else if n = 1 then (d2 : Int) * sizeof_float else sizeof_float
  type_num := NPY_FLOAT
  data := fun p =>
    f (p / sizeof_float / d2 / d1) (p / sizeof_float / d2 % d1) (p / sizeof_float % d2)

/-! ## Loops and BLAS -/

/-- The C loop `for (v = lo; v < hi; ++v) body`, threading the state. -/
def forLoop {σ : Type} (lo hi : Int) (body : Int → σ → σ) (s : σ) : σ :=
  (List.range (hi - lo).toNat).foldl (fun acc (t : Nat) => body (lo + (t : Int)) acc) s

/-- The BLAS routine `cblas_saxpy(N, alpha, X, incX, Y, incY)`, which performs
`Y[iy] += alpha * X[ix]` for `N` elements. `x` and `y` are the byte offsets of
the two `float*` arguments in the memories `X` (read) and `Y` (updated). As in
the reference BLAS (`saxpy.f`), the routine returns at once when `N <= 0` or
when `alpha` is zero, touching neither `X` nor `Y`, and a negative increment
makes the walk start `(1 - N) * inc` elements after the pointer. -/
def cblas_saxpy {α : Type} [Inhabited α] [Add α] [Mul α] [Zero α] [DecidableEq α]
    (N : Int) (alpha : α)
    (X : Int → α) (x : Int) (incX : Int) (Y : Mem α) (y : Int) (incY : Int) : Mem α :=
  if alpha = 0 then Y else
  (List.range N.toNat).foldl
    (fun acc (t : Nat) =>
      store acc
        (y + sizeof_float * ((if incY < 0 then (1 - N) * incY else 0) + (t : Int) * incY))
        (load acc (y + sizeof_float * ((if incY < 0 then (1 - N) * incY else 0) + (t : Int) * incY))
          + alpha * X (x + sizeof_float * ((if incX < 0 then (1 - N) * incX else 0) + (t : Int) * incX))))
    Y

/-! ## The kernel -/

/-- The C expression `int top_pad = (filter_dims[0]-1)/2`. -/
def top_pad (filter_dims : Nat → Nat) : Int := Int.tdiv ((filter_dims 0 : Int) - 1) 2

/-- The C expression `int bottom_pad = filter_dims[0] - 1 - top_pad`. -/
def bottom_pad (filter_dims : Nat → Nat) : Int := (filter_dims 0 : Int) - 1 - top_pad filter_dims

/-- The C expression `int left_pad = (filter_dims[1]-1)/2`. -/
def left_pad (filter_dims : Nat → Nat) : Int := Int.tdiv ((filter_dims 1 : Int) - 1) 2

/-- The C expression `int right_pad = filter_dims[1] - 1 - left_pad`. -/
def right_pad (filter_dims : Nat → Nat) : Int := (filter_dims 1 : Int) - 1 - left_pad filter_dims

/-- Exception classes of the Python C-API (some of the built-in ones).
`detect` names only `PyExc_TypeError`. -/
inductive PyExc where
  | PyExc_TypeError
  | PyExc_ValueError
  | PyExc_IndexError
  | PyExc_MemoryError
  deriving DecidableEq, Repr

/-- The error indicator set by `PyErr_SetString(exc, message)`. -/
structure PyErr where
  exc : PyExc
  message : String
  deriving DecidableEq, Repr

/-- What a call of `detect` leaves behind: the number of arrays it created
with `PyArray_SimpleNew`, the error indicator, the returned pointer (`none` is
`NULL`), and whether the call ended the process with a memory fault instead
of returning. -/
structure Outcome (α : Type) where
  allocations : Nat
  err : Option PyErr
  ret : Option (PyArrayObject α)
  crashed : Bool

/-- The statement pair `PyErr_SetString(PyExc_TypeError, message); return NULL;`. -/
def raiseTypeError {α : Type} (message : String) : Outcome α :=
  { allocations := 0, err := some ⟨PyExc.PyExc_TypeError, message⟩, ret := none,
    crashed := false }

/-- A read through a `NULL` pointer: the process ends there; nothing is
returned, no error is set and nothing has been allocated. -/
def nullDereference {α : Type} : Outcome α :=
  { allocations := 0, err := none, ret := none, crashed := true }

/-- Lines 62-67, "zero out array": every cell of the score map is set to `-bias`. -/
def zero_out {α : Type} [Neg α] (pyfiltered : PyArrayObject α) (bias : α)
    (mem : Mem α) : Mem α :=
  forLoop 0 (pyfiltered.dimensions 0) (fun a mem =>
    forLoop 0 (pyfiltered.dimensions 1) (fun b mem =>
      store mem (PyArray_GETPTR2 pyfiltered a b) (-bias)) mem) mem

/-- Lines 69-85, "for each layer": for every channel `l` and filter offset
`(i, j)`, each row `k` of the valid range receives one `cblas_saxpy` that adds
`weight` times a strip of the features to a strip of the score map. -/
def accumulate {α : Type} [Inhabited α] [Add α] [Mul α] [Zero α] [DecidableEq α]
    (pyfeatures pyfilter pyfiltered : PyArrayObject α) (mem : Mem α) : Mem α :=
  forLoop 0 32 (fun l mem =>
    forLoop 0 (pyfilter.dimensions 0) (fun i mem =>
      forLoop 0 (pyfilter.dimensions 1) (fun j mem =>
        forLoop 0 ((pyfeatures.dimensions 0 : Int) - pyfilter.dimensions 0 + 1) (fun k mem =>
          cblas_saxpy ((pyfeatures.dimensions 1 : Int) - pyfilter.dimensions 1 + 1)
            (pyfilter.data (PyArray_GETPTR3 pyfilter i j l))
            pyfeatures.data (PyArray_GETPTR3 pyfeatures (i + k) j l)
            (pyfeatures.strides 1 / sizeof_float)
            mem
            (PyArray_GETPTR2 pyfiltered
              (k + Int.tdiv ((pyfilter.dimensions 0 : Int) - 1) 2)
              (Int.tdiv ((pyfilter.dimensions 1 : Int) - 1) 2))
            (pyfiltered.strides 1 / sizeof_float)) mem) mem) mem) mem

/-- Lines 87-102, "invalidate edges": the four loops that write `-2` into the
top rows, the bottom rows, the left columns and the right columns. -/
def invalidate_edges {α : Type} [Neg α] [OfNat α 2] (pyfilter pyfiltered : PyArrayObject α)
    (mem : Mem α) : Mem α :=
  let m1 := forLoop 0 (top_pad pyfilter.dimensions) (fun a mem =>
    forLoop 0 (pyfiltered.dimensions 1) (fun b mem =>
      store mem (PyArray_GETPTR2 pyfiltered a b) (-2)) mem) mem
  let m2 := forLoop ((pyfiltered.dimensions 0 : Int) - bottom_pad pyfilter.dimensions)
    (pyfiltered.dimensions 0) (fun a mem =>
    forLoop 0 (pyfiltered.dimensions 1) (fun b mem =>
      store mem (PyArray_GETPTR2 pyfiltered a b) (-2)) mem) m1
  let m3 := forLoop 0 (pyfiltered.dimensions 0) (fun a mem =>
    forLoop 0 (left_pad pyfilter.dimensions) (fun b mem =>
      store mem (PyArray_GETPTR2 pyfiltered a b) (-2)) mem) m2
  forLoop 0 (pyfiltered.dimensions 0) (fun a mem =>
    forLoop ((pyfiltered.dimensions 1 : Int) - right_pad pyfilter.dimensions)
      (pyfiltered.dimensions 1) (fun b mem =>
      store mem (PyArray_GETPTR2 pyfiltered a b) (-2)) mem) m3

/-- The C function `detect(pyfeatures, pyfilter, bias)`. Lines 16-19 compute
the four pads from `filter_dims[0]` and `filter_dims[1]` ahead of every check:
for a filter without axes `filter_dims` is `NULL` and the read of line 16 ends
the process. (For a filter with one axis, `filter_dims[1]` is the word after
the extents in NumPy's block of extents and strides; its value is not used
before the rank check fails.) Then come the six checks, each ending the call
with a `TypeError`; then the allocation of the score map with the extents of
the features' first two axes, its initialisation to `-bias`, the accumulation
and the invalidation of the edges, where the pads are the functions `top_pad`,
`bottom_pad`, `left_pad`, `right_pad` of the filter's extents. -/
def detect {α : Type} [Inhabited α] [Add α] [Mul α] [Neg α] [OfNat α 2] [Zero α]
    [DecidableEq α]
    (pyfeatures pyfilter : PyArrayObject α) (bias : α) : Outcome α :=
  if pyfilter.nd = 0 then
    nullDereference
  else if pyfeatures.nd ≠ 3 then
    raiseTypeError "Features must be 3 dimensional."
  else if pyfilter.nd ≠ 3 then
    raiseTypeError "Filter must be 3 dimensional."
  else if pyfeatures.type_num ≠ NPY_FLOAT then
    raiseTypeError "Features must be single precision floating point."
  else if pyfilter.type_num ≠ NPY_FLOAT then
    raiseTypeError "Filter must be a single precision floating point."
  else if pyfeatures.dimensions 2 ≠ 32 then
    raiseTypeError "features' feature dimsionality should be 32."
  else if pyfilter.dimensions 2 ≠ 32 then
    raiseTypeError "filters' feature dimensionality should be 32."
  else
    let pyfiltered : PyArrayObject α :=
      PyArray_SimpleNew2 (pyfeatures.dimensions 0) (pyfeatures.dimensions 1)
    { allocations := 1
      err := none
      ret := some
        { pyfiltered with
          data :=
            load (invalidate_edges pyfilter pyfiltered
              (accumulate pyfeatures pyfilter pyfiltered
                (zero_out pyfiltered bias []))) }
      crashed := false }


/-- The six checks of `detect` (lines 26-54) all pass. -/
def Valid {α : Type} (pyfeatures pyfilter : PyArrayObject α) : Prop :=
  pyfeatures.nd = 3 ∧ pyfilter.nd = 3 ∧
  pyfeatures.type_num = NPY_FLOAT ∧ pyfilter.type_num = NPY_FLOAT ∧
  pyfeatures.dimensions 2 = 32 ∧ pyfilter.dimensions 2 = 32

instance {α : Type} (pyfeatures pyfilter : PyArrayObject α) : Decidable (Valid pyfeatures pyfilter) := by
  unfold Valid; infer_instance

/-- The axis-1 stride of the array is a non-negative whole number of `float`s:
the strip that `cblas_saxpy` walks with increment `strides[1]/sizeof(float)`
is then the row of logical elements. Dense row-major arrays, and the slices of
them taken with positive steps, are of this kind. -/
def ForwardRows {α : Type} (A : PyArrayObject α) : Prop :=
  0 ≤ A.strides 1 ∧ sizeof_float ∣ A.strides 1

instance {α : Type} (A : PyArrayObject α) : Decidable (ForwardRows A) := by
  unfold ForwardRows; infer_instance

/-- The sum of the terms that the `cblas_saxpy` calls of `accumulate` add at
byte offset `q` of the score map: one term for every channel `l`, filter
offset `(i, j)`, row `k` and strip position `t` whose target is `q`. -/
def contribution {α : Type} [CommRing α] (F G S : PyArrayObject α) (q : Int) : α :=
  ∑ l ∈ Finset.range 32, ∑ i ∈ Finset.range (G.dimensions 0),
    ∑ j ∈ Finset.range (G.dimensions 1),
      ∑ k ∈ Finset.range ((F.dimensions 0 : Int) - G.dimensions 0 + 1).toNat,
        ∑ t ∈ Finset.range ((F.dimensions 1 : Int) - G.dimensions 1 + 1).toNat,
          if q = PyArray_GETPTR2 S
                ((k : Int) + Int.tdiv ((G.dimensions 0 : Int) - 1) 2)
                (Int.tdiv ((G.dimensions 1 : Int) - 1) 2)
              + sizeof_float * ((if S.strides 1 / sizeof_float < 0
                  then (1 - ((F.dimensions 1 : Int) - G.dimensions 1 + 1))
                    * (S.strides 1 / sizeof_float) else 0)
                + (t : Int) * (S.strides 1 / sizeof_float))
          then G.data (PyArray_GETPTR3 G i j l) *
            F.data (PyArray_GETPTR3 F ((i : Int) + k) j l
              + sizeof_float * ((if F.strides 1 / sizeof_float < 0
                  then (1 - ((F.dimensions 1 : Int) - G.dimensions 1 + 1))
                    * (F.strides 1 / sizeof_float) else 0)
                + (t : Int) * (F.strides 1 / sizeof_float)))
          else 0

/-! ## The checks and their failure signals -/

/-- The six checks of `detect`, in the order of the source (lines 26-54). -/
inductive Check where
  | featuresNdim
  | filterNdim
  | featuresType
  | filterType
  | featuresChannels
  | filterChannels
  deriving DecidableEq, Repr

/-- The condition that a check tests. -/
def Check.holds {α : Type} (pyfeatures pyfilter : PyArrayObject α) : Check → Prop
  | .featuresNdim => pyfeatures.nd = 3
  | .filterNdim => pyfilter.nd = 3
  | .featuresType => pyfeatures.type_num = NPY_FLOAT
  | .filterType => pyfilter.type_num = NPY_FLOAT
  | .featuresChannels => pyfeatures.dimensions 2 = 32
  | .filterChannels => pyfilter.dimensions 2 = 32

instance {α : Type} (pyfeatures pyfilter : PyArrayObject α) (c : Check) :
    Decidable (c.holds pyfeatures pyfilter) := by
  cases c <;> unfold Check.holds <;> infer_instance

/-- The error that the source sets where a check fails. -/
def Check.signal : Check → PyErr
  | .featuresNdim => ⟨PyExc.PyExc_TypeError, "Features must be 3 dimensional."⟩
  | .filterNdim => ⟨PyExc.PyExc_TypeError, "Filter must be 3 dimensional."⟩
  | .featuresType =>
    ⟨PyExc.PyExc_TypeError, "Features must be single precision floating point."⟩
  | .filterType =>
    ⟨PyExc.PyExc_TypeError, "Filter must be a single precision floating point."⟩
  | .featuresChannels =>
    ⟨PyExc.PyExc_TypeError, "features' feature dimsionality should be 32."⟩
  | .filterChannels =>
    ⟨PyExc.PyExc_TypeError, "filters' feature dimensionality should be 32."⟩

/-! ## Sample inputs -/

/-- Features of extents `3 x 4 x 32`, dense, with distinct entries. -/
def featuresSample : PyArrayObject Int :=
  denseArray3 3 4 32 (fun i j k => 100 * i + 10 * j + k % 2)

/-- A filter of extents `2 x 3 x 32`, dense, non-zero in channel `0` only. -/
def filterSample : PyArrayObject Int :=
  denseArray3 2 3 32 (fun i j k => if k = 0 then i + 2 * j else 0)

/-- Features of extents `5 x 5 x 32` filled with `1`. -/
def onesFeatures : PyArrayObject Int := denseArray3 5 5 32 (fun _ _ _ => 1)

/-- A filter of extents `3 x 3 x 32` filled with `0`. -/
def zeroFilter : PyArrayObject Int := denseArray3 3 3 32 (fun _ _ _ => 0)

/-- A filter of extents `1 x 1 x 32` with weight `l + 1` in channel `l`. -/
def pointFilter : PyArrayObject Int := denseArray3 1 1 32 (fun _ _ k => k + 1)

/-- The features `featuresSample` supplied as 64-bit floats. -/
def doubleFeatures : PyArrayObject Int := { featuresSample with type_num := NPY_DOUBLE }

/-- Features of extents `3 x 4 x 16`: sixteen channels instead of `32`. -/
def narrowFeatures : PyArrayObject Int := denseArray3 3 4 16 (fun _ _ _ => 1)

/-- The extents of a filter with `4` rows and `3` columns. -/
def filterShape43 : Nat → Nat := fun n => if n = 0 then 4 else if n = 1 then 3 else 32

/-- The position of a check in the source: `0` for the first, `5` for the last. -/
def Check.position : Check → Nat
  | .featuresNdim => 0
  | .filterNdim => 1
  | .featuresType => 2
  | .filterType => 3
  | .featuresChannels => 4
  | .filterChannels => 5

/-- Features of extents `3 x 4 x 16` supplied as 64-bit floats: both the
element type and the channel count are wrong. -/
def doubleNarrowFeatures : PyArrayObject Int := { narrowFeatures with type_num := NPY_DOUBLE }

/-- A filter of extents `3 x 4 x 32`, the spatial size of `featuresSample`. -/
def fullFilter : PyArrayObject Int :=
  denseArray3 3 4 32 (fun i j k => if k = 1 then i + j else 0)

/-- A second filter of extents `2 x 3 x 32`, non-zero in channel `1` only. -/
def filterSample2 : PyArrayObject Int :=
  denseArray3 2 3 32 (fun i j k => if k = 1 then 3 * i + j else 0)

/-- The filter holding the element-wise sum of `filterSample` and `filterSample2`. -/
def filterSampleSum : PyArrayObject Int :=
  denseArray3 2 3 32
    (fun i j k => (if k = 0 then i + 2 * j else 0) + (if k = 1 then 3 * i + j else 0))

/-! ## Accesses -/

/-- A read that the accumulation makes in one of the two input arrays, with
the byte offset from that array's data pointer. -/
inductive Access where
  | filterRead (p : Int)
  | featuresRead (p : Int)
  deriving DecidableEq, Repr

/-- The byte offsets at which `cblas_saxpy(N, alpha, X, incX, ..)` reads `X`,
in the order of the walk (see `cblas_saxpy`): none when `alpha` is zero. -/
def cblas_saxpy_reads {α : Type} [Zero α] [DecidableEq α] (N : Int) (alpha : α)
    (x incX : Int) : List Int :=
  if alpha = 0 then [] else
  (List.range N.toNat).map
    (fun (t : Nat) => x + sizeof_float * ((if incX < 0 then (1 - N) * incX else 0) + (t : Int) * incX))

/-- The reads of the filter and of the features made by the loops of
`accumulate` (lines 69-85), in order: the weight `G[i, j, l]` of line 76, then
for every row `k` the strip of features read by the `cblas_saxpy` of line 81. -/
def accumulate_reads {α : Type} [Zero α] [DecidableEq α]
    (pyfeatures pyfilter : PyArrayObject α) (trace : List Access) : List Access :=
  forLoop 0 32 (fun l trace =>
    forLoop 0 (pyfilter.dimensions 0) (fun i trace =>
      forLoop 0 (pyfilter.dimensions 1) (fun j trace =>
        forLoop 0 ((pyfeatures.dimensions 0 : Int) - pyfilter.dimensions 0 + 1) (fun k trace =>
          trace ++ (cblas_saxpy_reads ((pyfeatures.dimensions 1 : Int) - pyfilter.dimensions 1 + 1)
            (pyfilter.data (PyArray_GETPTR3 pyfilter i j l))
            (PyArray_GETPTR3 pyfeatures (i + k) j l)
            (pyfeatures.strides 1 / sizeof_float)).map Access.featuresRead)
          (trace ++ [Access.filterRead (PyArray_GETPTR3 pyfilter i j l)])) trace) trace) trace

/-- The writes that a call of `detect` passing the checks makes to the score
map, newest first: the memory whose `load` is the data of the returned array.
The `cblas_saxpy` calls read the score map at the offsets they write. -/
def detect_writes {α : Type} [Inhabited α] [Add α] [Mul α] [Neg α] [OfNat α 2] [Zero α]
    [DecidableEq α]
    (pyfeatures pyfilter : PyArrayObject α) (bias : α) : Mem α :=
  invalidate_edges pyfilter
    (PyArray_SimpleNew2 (pyfeatures.dimensions 0) (pyfeatures.dimensions 1))
    (accumulate pyfeatures pyfilter
      (PyArray_SimpleNew2 (pyfeatures.dimensions 0) (pyfeatures.dimensions 1))
      (zero_out (PyArray_SimpleNew2 (pyfeatures.dimensions 0) (pyfeatures.dimensions 1))
        bias []))

/-- The byte offset `p` is that of an element `A[a, b]` with both indices
within the extents of the two-dimensional array `A`. -/
def InBounds2 {α : Type} (A : PyArrayObject α) (p : Int) : Prop :=
  ∃ a : Nat, a < A.dimensions 0 ∧ ∃ b : Nat, b < A.dimensions 1 ∧ p = PyArray_GETPTR2 A a b

instance {α : Type} (A : PyArrayObject α) (p : Int) : Decidable (InBounds2 A p) := by
  unfold InBounds2; infer_instance

/-- The byte offset `p` is that of an element `A[i, j, l]` with all three
indices within the extents of the three-dimensional array `A`. -/
def InBounds3 {α : Type} (A : PyArrayObject α) (p : Int) : Prop :=
  ∃ i : Nat, i < A.dimensions 0 ∧ ∃ j : Nat, j < A.dimensions 1 ∧
    ∃ l : Nat, l < A.dimensions 2 ∧ p = PyArray_GETPTR3 A i j l

instance {α : Type} (A : PyArrayObject α) (p : Int) : Decidable (InBounds3 A p) := by
  unfold InBounds3; infer_instance

/-- A read of the trace lies within the bounds of the array it reads. -/
def Access.inBounds {α : Type} (pyfeatures pyfilter : PyArrayObject α) : Access → Prop
  | .filterRead p => InBounds3 pyfilter p
  | .featuresRead p => InBounds3 pyfeatures p

/-! ## Layouts -/

/-- A dense row-major array with the extents and the logical elements of `A`. -/
def contiguousCopy {α : Type} (A : PyArrayObject α) : PyArrayObject α :=
  denseArray3 (A.dimensions 0) (A.dimensions 1) (A.dimensions 2) (fun i j k => A.get3 i j k)

/-- The view `base[:, 2::-1, :]` of a dense `1 x 5 x 32` array `base` with
`base[0, c, l] = 10 * c + 1` for `l = 0` and `0` otherwise: extents
`1 x 3 x 32`, axis-1 stride `-128` bytes, data pointer at `base[0, 2, 0]`.
Its logical rows are `21, 11, 1` in channel `0`. -/
def reversedFeatures : PyArrayObject Int where
  nd := 3
  dimensions := fun n => if n = 0 then 1 else if n = 1 then 3 else 32
  strides := fun n => if n = 0 then 640 else if n = 1 then -128 else 4
  type_num := NPY_FLOAT
  data := fun p => if (p + 256) % 128 = 0 then 10 * ((p + 256) / 128) + 1 else 0

/-- A filter of extents `1 x 2 x 32` with weights `1` and `100` in channel `0`. -/
def pairFilter : PyArrayObject Int :=
  denseArray3 1 2 32 (fun _ j k => if k = 0 then (if j = 0 then 1 else 100) else 0)

/-- Features of extents `1 x 1 x 32` filled with `1`. -/
def unitFeatures : PyArrayObject Int := denseArray3 1 1 32 (fun _ _ _ => 1)

/-- A filter of extents `4 x 1 x 32` filled with `1`. -/
def deepFilter : PyArrayObject Int := denseArray3 4 1 32 (fun _ _ _ => 1)

/-- The products `G[i,j,l] * F[y+i-top_pad, x+j-left_pad, l]` for the cell
`(y, x)`, listed with the channel `l` ascending outermost, then the filter row
`i` ascending, then the filter column `j` ascending. -/
def correlation_terms {α : Type} [Mul α] (F G : PyArrayObject α) (y x : Int) : List α :=
  (List.range 32).flatMap (fun (l : Nat) =>
    (List.range (G.dimensions 0)).flatMap (fun (i : Nat) =>
      (List.range (G.dimensions 1)).map (fun (j : Nat) =>
        G.get3 i j l * F.get3 (y + i - top_pad G.dimensions) (x + j - left_pad G.dimensions) l)))

/-- The products of `correlation_terms` whose weight `G[i,j,l]` is not zero, in
the same order: the terms that the `cblas_saxpy` calls add. -/
def accumulated_terms {α : Type} [Mul α] [Zero α] [DecidableEq α] (F G : PyArrayObject α)
    (y x : Int) : List α :=
  (List.range 32).flatMap (fun (l : Nat) =>
    (List.range (G.dimensions 0)).flatMap (fun (i : Nat) =>
      ((List.range (G.dimensions 1)).filter (fun (j : Nat) => G.get3 i j l ≠ 0)).map
        (fun (j : Nat) =>
          G.get3 i j l * F.get3 (y + i - top_pad G.dimensions) (x + j - left_pad G.dimensions) l)))

/-- The transformer `T` only adds writes to the log, and the offsets of the
writes it adds are exactly those of `A`. -/
def Appends {α : Type} (T : Mem α → Mem α) (A : Int → Prop) : Prop :=
  ∀ m, ∃ added, T m = added ++ m ∧ ∀ p, (∃ v, (p, v) ∈ added) ↔ A p

/-- The transformer `T` writes `v` at every offset of `A` and leaves every
other offset as it was. -/
def Paints {α : Type} [Inhabited α] (v : α) (T : Mem α → Mem α) (A : Int → Prop) : Prop :=
  ∀ m q, (A q → load (T m) q = v) ∧ (¬ A q → load (T m) q = load m q)

/-! ## Single precision -/

/-- How often a natural number must be halved to fall below `2^24`: the number
of binary digits it has beyond 24 (`fuel` bounds the count). -/
def excessBits : Nat → Nat → Nat
  | 0, _ => 0
  | fuel + 1, a => if a < 2 ^ 24 then 0 else excessBits fuel (a / 2) + 1

/-- The integer with a 24-bit significand nearest to `n`, a tie going to the
even significand: the default rounding of IEEE 754 binary32, on integers of
fewer than 280 binary digits. -/
def roundToSignificand24 (n : Int) : Int :=
  if n < 0 then
    -(((if 2 ^ excessBits 256 n.natAbs < 2 * (n.natAbs % 2 ^ excessBits 256 n.natAbs) ∨
          (2 * (n.natAbs % 2 ^ excessBits 256 n.natAbs) = 2 ^ excessBits 256 n.natAbs ∧
            n.natAbs / 2 ^ excessBits 256 n.natAbs % 2 = 1)
        then n.natAbs / 2 ^ excessBits 256 n.natAbs + 1
        else n.natAbs / 2 ^ excessBits 256 n.natAbs) * 2 ^ excessBits 256 n.natAbs : Nat) : Int)
  else
    (((if 2 ^ excessBits 256 n.natAbs < 2 * (n.natAbs % 2 ^ excessBits 256 n.natAbs) ∨
          (2 * (n.natAbs % 2 ^ excessBits 256 n.natAbs) = 2 ^ excessBits 256 n.natAbs ∧
            n.natAbs / 2 ^ excessBits 256 n.natAbs % 2 = 1)
        then n.natAbs / 2 ^ excessBits 256 n.natAbs + 1
        else n.natAbs / 2 ^ excessBits 256 n.natAbs) * 2 ^ excessBits 256 n.natAbs : Nat) : Int)

/-- The values of C `float` (IEEE 754 binary32) that are integers, the two
infinities and NaN. Fractions are left out, and the two signs of zero are not
told apart. -/
inductive Single where
  | finite (n : Int)
  | infinite (negative : Bool)
  | nan
  deriving DecidableEq, Repr

/-- The `float` nearest to the integer `n`: `n` rounded to 24 significant
bits, and an infinity once the rounded magnitude reaches `2^128`. -/
def Single.ofInt (n : Int) : Single :=
  if (roundToSignificand24 n).natAbs < 2 ^ 128 then Single.finite (roundToSignificand24 n)
  else Single.infinite (decide (n < 0))

/-- The C addition of two `float`s: the exact sum, rounded. -/
def Single.add : Single → Single → Single
  | .finite a, .finite b => Single.ofInt (a + b)
  | .finite _, .infinite s => .infinite s
  | .infinite s, .finite _ => .infinite s
  | .infinite s, .infinite t => if s = t then .infinite s else .nan
  | .nan, _ => .nan
  | .finite _, .nan => .nan
  | .infinite _, .nan => .nan

/-- The C multiplication of two `float`s: the exact product, rounded; zero
times an infinity is NaN. (A fused multiply-add rounds `y + a * x` once; on
the sample inputs, whose products are exact, it gives the same values.) -/
def Single.mul : Single → Single → Single
  | .finite a, .finite b => Single.ofInt (a * b)
  | .finite a, .infinite s => if a = 0 then .nan else .infinite (s != decide (a < 0))
  | .infinite s, .finite b => if b = 0 then .nan else .infinite (s != decide (b < 0))
  | .infinite s, .infinite t => .infinite (s != t)
  | .nan, _ => .nan
  | .finite _, .nan => .nan
  | .infinite _, .nan => .nan

/-- The C negation of a `float`. -/
def Single.neg : Single → Single
  | .finite a => .finite (-a)
  | .infinite s => .infinite (!s)
  | .nan => .nan

instance : Add Single := ⟨Single.add⟩

instance : Mul Single := ⟨Single.mul⟩

instance : Neg Single := ⟨Single.neg⟩

instance : Sub Single := ⟨fun a b => Single.add a (Single.neg b)⟩

instance : Zero Single := ⟨Single.finite 0⟩

instance : OfNat Single 2 := ⟨Single.finite 2⟩

instance : Inhabited Single := ⟨Single.finite 0⟩

/-- The array of `float`s that holds the integers of `A`. It is used for
arrays whose integers are `float`s as they stand (`0`, `1`, `3`, `2^24`). -/
def toSingle (A : PyArrayObject Int) : PyArrayObject Single :=
  { A with data := fun p => Single.finite (A.data p) }

/-! ## Further sample inputs -/

/-- An array without axes (a NumPy scalar array) of `float`: `PyArray_DIMS`
and `PyArray_STRIDES` are `NULL`, here the constant maps. -/
def scalarFilter : PyArrayObject Int where
  nd := 0
  dimensions := fun _ => 0
  strides := fun _ => 0
  type_num := NPY_FLOAT
  data := fun _ => 1

/-- A dense two-dimensional `float` array of extents `3 x 4`. -/
def flatFeatures : PyArrayObject Int where
  nd := 2
  dimensions := fun n => if n = 0 then 3 else 4
  strides := fun n => if n = 0 then 16 else 4
  type_num := NPY_FLOAT
  data := fun _ => 1

/-- A filter of extents `1 x 1 x 32` with weight `1` in channel `0` and `0`
elsewhere. -/
def unitWeightFilter : PyArrayObject Int :=
  denseArray3 1 1 32 (fun _ _ k => if k = 0 then 1 else 0)

/-- Features of extents `1 x 1 x 32` with `3` in channel `0` and `0` elsewhere. -/
def threeFeatures : PyArrayObject Int :=
  denseArray3 1 1 32 (fun _ _ k => if k = 0 then 3 else 0)

/-- Features of extents `1 x 1 x 32` with `2^24` in channel `0`, `1` in
channels `1..3` and `0` elsewhere. -/
def largeFirstFeatures : PyArrayObject Int :=
  denseArray3 1 1 32 (fun _ _ k => if k = 0 then 16777216 else if k ≤ 3 then 1 else 0)

/-- A filter of extents `1 x 1 x 32` filled with `1`. -/
def onesPointFilter : PyArrayObject Int := denseArray3 1 1 32 (fun _ _ _ => 1)

/-- Features of extents `2 x 2 x 32` with `F[1,1,0] = 2^24`,
`F[0,0,1] = F[0,0,2] = F[0,0,3] = 1` and `0` elsewhere. -/
def largeLastFeatures : PyArrayObject Int :=
  denseArray3 2 2 32 (fun i j k =>
    if i = 1 ∧ j = 1 ∧ k = 0 then 16777216
    else if i = 0 ∧ j = 0 ∧ 1 ≤ k ∧ k ≤ 3 then 1 else 0)

/-- A filter of extents `2 x 2 x 32` filled with `1`. -/
def onesSquareFilter : PyArrayObject Int := denseArray3 2 2 32 (fun _ _ _ => 1)

/-- Features of extents `1 x 1 x 32` of `float`s: `+Inf` in channel `0`, `5.0`
in channel `1` and `0.0` elsewhere. -/
def infiniteFeatures : PyArrayObject Single :=
  denseArray3 1 1 32 (fun _ _ k =>
    if k = 0 then Single.infinite false else if k = 1 then Single.finite 5 else Single.finite 0)

/-- A filter of extents `1 x 1 x 32` of `float`s with weight `1.0` in channel
`1` and `0.0` elsewhere. -/
def secondChannelFilter : PyArrayObject Single :=
  toSingle (denseArray3 1 1 32 (fun _ _ k => if k = 1 then 1 else 0))

section Lemmas

variable {α : Type} [Inhabited α]

theorem load_store (mem : Mem α) (p q : Int) (v : α) :
    load (store mem p v) q = if q = p then v else load mem q := rfl

/-- A fold over `List.range n` whose steps each add `c t` at offset `q` adds the sum. -/
theorem foldl_range_load_add [AddCommMonoid α] (q : Int) (step : Mem α → Nat → Mem α)
    (c : Nat → α) (n : Nat)
    (h : ∀ t, t < n → ∀ m, load (step m t) q = load m q + c t) (m : Mem α) :
    load ((List.range n).foldl step m) q = load m q + ∑ t ∈ Finset.range n, c t := by
  induction n with
  | zero => simp
  | succ n ih =>
    rw [List.range_succ, List.foldl_append, Finset.sum_range_succ]
    simp only [List.foldl_cons, List.foldl_nil]
    rw [h n (Nat.lt_succ_self n), ih (fun t ht => h t (Nat.lt_succ_of_lt ht)), add_assoc]

/-- A C loop whose iterations each add `c t` at offset `q` adds the sum. -/
theorem forLoop_load_add [AddCommMonoid α] (q lo hi : Int) (body : Int → Mem α → Mem α)
    (c : Nat → α)
    (h : ∀ t : Nat, t < (hi - lo).toNat → ∀ m, load (body (lo + (t : Int)) m) q = load m q + c t)
    (m : Mem α) :
    load (forLoop lo hi body m) q = load m q + ∑ t ∈ Finset.range (hi - lo).toNat, c t :=
  foldl_range_load_add q (fun acc (t : Nat) => body (lo + (t : Int)) acc) c _ h m

/-- What `cblas_saxpy` adds at offset `q`. -/
theorem cblas_saxpy_load [CommRing α] [DecidableEq α] (N : Int) (alpha : α) (X : Int → α) (x incX : Int)
    (Y : Mem α) (y incY q : Int) :
    load (cblas_saxpy N alpha X x incX Y y incY) q = load Y q +
      ∑ t ∈ Finset.range N.toNat,
        if q = y + sizeof_float * ((if incY < 0 then (1 - N) * incY else 0) + (t : Int) * incY)
        then alpha * X (x + sizeof_float * ((if incX < 0 then (1 - N) * incX else 0) + (t : Int) * incX))
        else 0 := by
  unfold cblas_saxpy
  by_cases ha : alpha = 0
  · rw [if_pos ha, ha]
    simp
  rw [if_neg ha]
  apply foldl_range_load_add
  intro t _ m
  rw [load_store]
  by_cases hq : q = y + sizeof_float * ((if incY < 0 then (1 - N) * incY else 0) + (t : Int) * incY)
  · rw [if_pos hq, if_pos hq, ← hq]
  · rw [if_neg hq, if_neg hq, add_zero]

/-- What the accumulation adds at offset `q`. -/
theorem accumulate_load [CommRing α] [DecidableEq α]
    (F G S : PyArrayObject α) (m : Mem α) (q : Int) :
    load (accumulate F G S m) q = load m q + contribution F G S q := by
  unfold contribution
  unfold accumulate
  have e32 : Finset.range 32 = Finset.range ((32 : Int) - 0).toNat := rfl
  have e0 : ∀ n : Nat, Finset.range n = Finset.range (((n : Int)) - 0).toNat := by
    intro n; simp
  rw [e32, e0 (G.dimensions 0), e0 (G.dimensions 1)]
  apply forLoop_load_add
  intro l _ m
  apply forLoop_load_add
  intro i _ m
  apply forLoop_load_add
  intro j _ m
  have ek : Finset.range ((F.dimensions 0 : Int) - G.dimensions 0 + 1).toNat
      = Finset.range ((F.dimensions 0 : Int) - G.dimensions 0 + 1 - 0).toNat := by simp
  rw [ek]
  apply forLoop_load_add
  intro k _ m
  rw [cblas_saxpy_load]
  simp only [zero_add]

theorem paints_store (v : α) (p : Int) :
    Paints v (fun m => store m p v) (fun q => q = p) := by
  intro m q
  constructor
  · intro h; rw [load_store, if_pos h]
  · intro h; rw [load_store, if_neg h]

theorem paints_foldl_range (v : α) (step : Mem α → Nat → Mem α) (A : Nat → Int → Prop)
    (n : Nat) (h : ∀ t, t < n → Paints v (fun m => step m t) (A t)) :
    Paints v (fun m => (List.range n).foldl step m) (fun q => ∃ t, t < n ∧ A t q) := by
  induction n with
  | zero =>
    intro m q
    constructor
    · rintro ⟨t, ht, -⟩; exact absurd ht (Nat.not_lt_zero t)
    · intro _; rfl
  | succ n ih =>
    have ih1 := ih (fun t ht => h t (Nat.lt_succ_of_lt ht))
    intro m q
    simp only [List.range_succ, List.foldl_append, List.foldl_cons, List.foldl_nil]
    have hn := h n (Nat.lt_succ_self n) ((List.range n).foldl step m) q
    by_cases hq : A n q
    · exact ⟨fun _ => hn.1 hq, fun hno => absurd ⟨n, Nat.lt_succ_self n, hq⟩ hno⟩
    · constructor
      · rintro ⟨t, ht, hA⟩
        rw [hn.2 hq]
        have htn : t < n := by
          rcases Nat.lt_succ_iff_lt_or_eq.mp ht with h1 | h1
          · exact h1
          · subst h1; exact absurd hA hq
        exact (ih1 m q).1 ⟨t, htn, hA⟩
      · intro hno
        rw [hn.2 hq]
        exact (ih1 m q).2 (fun ⟨t, ht, hA⟩ => hno ⟨t, Nat.lt_succ_of_lt ht, hA⟩)

theorem paints_forLoop (v : α) (lo hi : Int) (body : Int → Mem α → Mem α)
    (A : Nat → Int → Prop)
    (h : ∀ t : Nat, t < (hi - lo).toNat → Paints v (body (lo + (t : Int))) (A t)) :
    Paints v (forLoop lo hi body) (fun q => ∃ t : Nat, t < (hi - lo).toNat ∧ A t q) :=
  paints_foldl_range v (fun acc (t : Nat) => body (lo + (t : Int)) acc) A _ h

theorem paints_comp (v : α) (T1 T2 : Mem α → Mem α) (A1 A2 : Int → Prop)
    (h1 : Paints v T1 A1) (h2 : Paints v T2 A2) :
    Paints v (fun m => T2 (T1 m)) (fun q => A1 q ∨ A2 q) := by
  intro m q
  by_cases hq2 : A2 q
  · exact ⟨fun _ => (h2 (T1 m) q).1 hq2, fun hno => absurd (Or.inr hq2) hno⟩
  · constructor
    · intro hq
      rw [(h2 (T1 m) q).2 hq2]
      rcases hq with hq | hq
      · exact (h1 m q).1 hq
      · exact absurd hq hq2
    · intro hno
      rw [(h2 (T1 m) q).2 hq2]
      exact (h1 m q).2 (fun hq1 => hno (Or.inl hq1))

/-- A rectangle of stores `S[a, b] = v` for `a` in `[alo, ahi)` and `b` in
`[blo, bhi)`, with the rows in the outer loop. -/
theorem paints_rect (v : α) (S : PyArrayObject α) (alo ahi blo bhi : Int) :
    Paints v
      (forLoop alo ahi (fun a mem =>
        forLoop blo bhi (fun b mem => store mem (PyArray_GETPTR2 S a b) v) mem))
      (fun q => ∃ t : Nat, t < (ahi - alo).toNat ∧ ∃ u : Nat, u < (bhi - blo).toNat ∧
        q = PyArray_GETPTR2 S (alo + (t : Int)) (blo + (u : Int))) := by
  apply paints_forLoop
  intro t _
  apply paints_forLoop
  intro u _
  exact paints_store v _

/-- The offsets written by the initialisation loop. -/
theorem zero_out_paints [Neg α] (S : PyArrayObject α) (bias : α) :
    Paints (-bias) (zero_out S bias)
      (fun q => ∃ t : Nat, t < (((S.dimensions 0 : Nat) : Int) - 0).toNat ∧
        ∃ u : Nat, u < (((S.dimensions 1 : Nat) : Int) - 0).toNat ∧
        q = PyArray_GETPTR2 S (0 + (t : Int)) (0 + (u : Int))) :=
  paints_rect (-bias) S 0 (S.dimensions 0) 0 (S.dimensions 1)

/-- The offsets written by the four invalidation loops. -/
theorem invalidate_edges_paints [Neg α] [OfNat α 2] (G S : PyArrayObject α) :
    Paints (-2 : α) (invalidate_edges G S)
      (fun q =>
        (((∃ t : Nat, t < (top_pad G.dimensions - 0).toNat ∧
            ∃ u : Nat, u < (((S.dimensions 1 : Nat) : Int) - 0).toNat ∧
            q = PyArray_GETPTR2 S (0 + (t : Int)) (0 + (u : Int))) ∨
          (∃ t : Nat, t < (((S.dimensions 0 : Nat) : Int)
              - ((S.dimensions 0 : Int) - bottom_pad G.dimensions)).toNat ∧
            ∃ u : Nat, u < (((S.dimensions 1 : Nat) : Int) - 0).toNat ∧
            q = PyArray_GETPTR2 S ((S.dimensions 0 : Int) - bottom_pad G.dimensions + (t : Int))
              (0 + (u : Int)))) ∨
          (∃ t : Nat, t < (((S.dimensions 0 : Nat) : Int) - 0).toNat ∧
            ∃ u : Nat, u < (left_pad G.dimensions - 0).toNat ∧
            q = PyArray_GETPTR2 S (0 + (t : Int)) (0 + (u : Int)))) ∨
          (∃ t : Nat, t < (((S.dimensions 0 : Nat) : Int) - 0).toNat ∧
            ∃ u : Nat, u < (((S.dimensions 1 : Nat) : Int)
              - ((S.dimensions 1 : Int) - right_pad G.dimensions)).toNat ∧
            q = PyArray_GETPTR2 S (0 + (t : Int))
              ((S.dimensions 1 : Int) - right_pad G.dimensions + (u : Int)))) := by
  unfold invalidate_edges
  exact paints_comp _ _ _ _ _
    (paints_comp _ _ _ _ _
      (paints_comp _ _ _ _ _ (paints_rect _ S _ _ _ _) (paints_rect _ S _ _ _ _))
      (paints_rect _ S _ _ _ _))
    (paints_rect _ S _ _ _ _)

/-! ## Cells of the fresh score map -/

theorem getptr2_fresh (H W : Nat) (a b : Int) :
    PyArray_GETPTR2 (PyArray_SimpleNew2 H W : PyArrayObject α) a b
      = a * ((W : Int) * 4) + b * 4 := by
  simp [PyArray_GETPTR2, PyArray_SimpleNew2, sizeof_float]

/-- Row-major offsets with in-range columns determine the cell. -/
theorem cell_inj (a y b x W : Int) (hb : 0 ≤ b) (hbW : b < W) (hx : 0 ≤ x) (hxW : x < W)
    (h : a * (W * 4) + b * 4 = y * (W * 4) + x * 4) : a = y ∧ b = x := by
  have h1 : (a - y) * W = x - b := by linarith
  have hay : a = y := by
    rcases lt_trichotomy a y with hlt | heq | hgt
    · exfalso
      have : (a - y) * W ≤ -1 * W := by
        apply mul_le_mul_of_nonneg_right _ (by omega)
        omega
      omega
    · exact heq
    · exfalso
      have : 1 * W ≤ (a - y) * W := by
        apply mul_le_mul_of_nonneg_right _ (by omega)
        omega
      omega
  subst hay
  exact ⟨rfl, by omega⟩

/-- After the initialisation loop every cell of the score map holds `-bias`. -/
theorem zero_out_cell [Neg α] (H W : Nat) (bias : α) (m : Mem α) (y x : Nat)
    (hy : y < H) (hx : x < W) :
    load (zero_out (PyArray_SimpleNew2 H W) bias m)
      (PyArray_GETPTR2 (PyArray_SimpleNew2 H W : PyArrayObject α) y x) = -bias := by
  apply ((zero_out_paints (PyArray_SimpleNew2 H W) bias) m _).1
  refine ⟨y, ?_, x, ?_, ?_⟩
  · simpa [PyArray_SimpleNew2] using hy
  · simpa [PyArray_SimpleNew2] using hx
  · simp

/-- A border cell holds `-2` after the invalidation loops, whatever it held before. -/
theorem invalidate_edges_border [Neg α] [OfNat α 2] (G : PyArrayObject α) (H W : Nat)
    (m : Mem α) (y x : Nat) (hy : y < H) (hx : x < W)
    (hb : (y : Int) < top_pad G.dimensions ∨ (H : Int) - bottom_pad G.dimensions ≤ y ∨
      (x : Int) < left_pad G.dimensions ∨ (W : Int) - right_pad G.dimensions ≤ x) :
    load (invalidate_edges G (PyArray_SimpleNew2 H W) m)
      (PyArray_GETPTR2 (PyArray_SimpleNew2 H W : PyArrayObject α) y x) = -2 := by
  apply ((invalidate_edges_paints G (PyArray_SimpleNew2 H W)) m _).1
  have d0 : (PyArray_SimpleNew2 H W : PyArrayObject α).dimensions 0 = H := by
    simp [PyArray_SimpleNew2]
  have d1 : (PyArray_SimpleNew2 H W : PyArrayObject α).dimensions 1 = W := by
    simp [PyArray_SimpleNew2]
  rw [d0, d1]
  rcases hb with h | h | h | h
  · left; left; left
    refine ⟨y, by omega, x, by omega, ?_⟩
    simp
  · left; left; right
    refine ⟨((y : Int) - ((H : Int) - bottom_pad G.dimensions)).toNat, by omega, x, by omega, ?_⟩
    congr 1
    · omega
    · omega
  · left; right
    refine ⟨y, by omega, x, by omega, ?_⟩
    simp
  · right
    refine ⟨y, by omega, ((x : Int) - ((W : Int) - right_pad G.dimensions)).toNat, by omega, ?_⟩
    congr 1
    · omega
    · omega

/-- A cell outside the four border strips is not touched by the invalidation loops. -/
theorem invalidate_edges_inner [Neg α] [OfNat α 2] (G : PyArrayObject α) (H W : Nat)
    (m : Mem α) (y x : Nat)
    (hy1 : top_pad G.dimensions ≤ y) (hy2 : (y : Int) < (H : Int) - bottom_pad G.dimensions)
    (hx1 : left_pad G.dimensions ≤ x) (hx2 : (x : Int) < (W : Int) - right_pad G.dimensions)
    (hxW : x < W) :
    load (invalidate_edges G (PyArray_SimpleNew2 H W) m)
      (PyArray_GETPTR2 (PyArray_SimpleNew2 H W : PyArrayObject α) y x)
      = load m (PyArray_GETPTR2 (PyArray_SimpleNew2 H W : PyArrayObject α) y x) := by
  apply ((invalidate_edges_paints G (PyArray_SimpleNew2 H W)) m _).2
  have d0 : (PyArray_SimpleNew2 H W : PyArrayObject α).dimensions 0 = H := by
    simp [PyArray_SimpleNew2]
  have d1 : (PyArray_SimpleNew2 H W : PyArrayObject α).dimensions 1 = W := by
    simp [PyArray_SimpleNew2]
  rw [d0, d1]
  simp only [getptr2_fresh]
  rintro (((⟨t, ht, u, hu, e⟩ | ⟨t, ht, u, hu, e⟩) | ⟨t, ht, u, hu, e⟩) | ⟨t, ht, u, hu, e⟩)
  · have := cell_inj _ _ _ _ (W : Int) (by omega) (by omega) (by omega) (by omega) e.symm
    omega
  · have := cell_inj _ _ _ _ (W : Int) (by omega) (by omega) (by omega) (by omega) e.symm
    omega
  · have := cell_inj _ _ _ _ (W : Int) (by omega) (by omega) (by omega) (by omega) e.symm
    omega
  · have := cell_inj _ _ _ _ (W : Int) (by omega) (by omega) (by omega) (by omega) e.symm
    omega

/-- A double sum with exactly one non-zero term. -/
theorem sum_sum_ite_single {β : Type} [AddCommMonoid β] (K T k0 t0 : Nat)
    (hk : k0 < K) (ht : t0 < T) (P : Nat → Nat → Prop) [∀ k t, Decidable (P k t)]
    (v : Nat → Nat → β)
    (hP : ∀ k t, k < K → t < T → (P k t ↔ k = k0 ∧ t = t0)) :
    (∑ k ∈ Finset.range K, ∑ t ∈ Finset.range T, if P k t then v k t else 0) = v k0 t0 := by
  rw [Finset.sum_eq_single k0]
  · rw [Finset.sum_eq_single t0]
    · rw [if_pos ((hP k0 t0 hk ht).2 ⟨rfl, rfl⟩)]
    · intro t htT hne
      rw [if_neg]
      intro hp
      exact hne ((hP k0 t hk (Finset.mem_range.mp htT)).1 hp).2
    · intro hno
      exact absurd (Finset.mem_range.mpr ht) hno
  · intro k hkK hne
    apply Finset.sum_eq_zero
    intro t htT
    rw [if_neg]
    intro hp
    exact hne ((hP k t (Finset.mem_range.mp hkK) (Finset.mem_range.mp htT)).1 hp).1
  · intro hno
    exact absurd (Finset.mem_range.mpr hk) hno

/-- The truncating half of `n - 1` lies between `0` and `n - 1` when `n >= 1`. -/
theorem tdiv_pad_bounds (n : Nat) (hn : 1 ≤ n) :
    0 ≤ Int.tdiv ((n : Int) - 1) 2 ∧ Int.tdiv ((n : Int) - 1) 2 ≤ (n : Int) - 1 := by
  rw [Int.tdiv_eq_ediv (by omega) (by norm_num)]
  omega

/-- What the accumulation adds to a cell of the valid region: the full
correlation sum, taken in the order of the loops (channel, filter row, filter
column). -/
theorem contribution_cell [CommRing α] (F G : PyArrayObject α) (y x : Nat)
    (hlay : ForwardRows F) (hh1 : 1 ≤ G.dimensions 0) (hw1 : 1 ≤ G.dimensions 1)
    (hy1 : top_pad G.dimensions ≤ y)
    (hy2 : (y : Int) ≤ top_pad G.dimensions + F.dimensions 0 - G.dimensions 0)
    (hx1 : left_pad G.dimensions ≤ x)
    (hx2 : (x : Int) ≤ left_pad G.dimensions + F.dimensions 1 - G.dimensions 1) :
    contribution F G (PyArray_SimpleNew2 (F.dimensions 0) (F.dimensions 1))
        (PyArray_GETPTR2
          (PyArray_SimpleNew2 (F.dimensions 0) (F.dimensions 1) : PyArrayObject α) y x)
      = ∑ l ∈ Finset.range 32, ∑ i ∈ Finset.range (G.dimensions 0),
            ∑ j ∈ Finset.range (G.dimensions 1),
              G.get3 i j l * F.get3 ((y : Int) + i - top_pad G.dimensions)
                ((x : Int) + j - left_pad G.dimensions) l := by
  unfold contribution
  apply Finset.sum_congr rfl
  intro l _
  apply Finset.sum_congr rfl
  intro i _
  apply Finset.sum_congr rfl
  intro j _
  have htp := tdiv_pad_bounds (G.dimensions 0) hh1
  have hlp := tdiv_pad_bounds (G.dimensions 1) hw1
  have etp : top_pad G.dimensions = Int.tdiv ((G.dimensions 0 : Int) - 1) 2 := rfl
  have elp : left_pad G.dimensions = Int.tdiv ((G.dimensions 1 : Int) - 1) 2 := rfl
  rw [← etp] at htp
  rw [← elp] at hlp
  rw [← etp, ← elp]
  have hs1 : (PyArray_SimpleNew2 (F.dimensions 0) (F.dimensions 1) : PyArrayObject α).strides 1
      / sizeof_float = 1 := by
    simp [PyArray_SimpleNew2, sizeof_float]
  obtain ⟨hc0, c, hc⟩ := hlay
  have hsF : F.strides 1 / sizeof_float = c := by
    rw [hc]; simp [sizeof_float]
  have hcnn : ¬ c < 0 := by
    have : (0 : Int) ≤ sizeof_float * c := hc ▸ hc0
    simp only [sizeof_float] at this
    omega
  rw [hs1, hsF]
  simp only [if_neg hcnn, if_neg (show ¬ (1 : Int) < 0 by decide), getptr2_fresh, zero_add,
    mul_one]
  rw [sum_sum_ite_single _ _ ((y : Int) - top_pad G.dimensions).toNat
    ((x : Int) - left_pad G.dimensions).toNat (by omega) (by omega)]
  · unfold PyArrayObject.get3 PyArray_GETPTR3
    congr 2
    rw [hc]
    have ek : ((((y : Int) - top_pad G.dimensions).toNat : Nat) : Int)
        = (y : Int) - top_pad G.dimensions := by omega
    have et : ((((x : Int) - left_pad G.dimensions).toNat : Nat) : Int)
        = (x : Int) - left_pad G.dimensions := by omega
    rw [ek, et]
    ring
  · intro k t hk ht
    constructor
    · intro e
      have e2 : ((k : Int) + top_pad G.dimensions) * ((F.dimensions 1 : Int) * 4)
          + (left_pad G.dimensions + (t : Int)) * 4
          = (y : Int) * ((F.dimensions 1 : Int) * 4) + (x : Int) * 4 := by
        simp only [sizeof_float] at e
        linarith
      have := cell_inj _ _ _ _ (F.dimensions 1 : Int) (by omega) (by omega) (by omega)
        (by omega) e2
      omega
    · rintro ⟨rfl, rfl⟩
      have ek : ((((y : Int) - top_pad G.dimensions).toNat : Nat) : Int)
          = (y : Int) - top_pad G.dimensions := by omega
      have et : ((((x : Int) - left_pad G.dimensions).toNat : Nat) : Int)
          = (x : Int) - left_pad G.dimensions := by omega
      rw [ek, et]
      simp only [sizeof_float]
      ring

/-! ## The result of a call that passes the checks -/

/-- A call that passes the six checks allocates once, sets no error and returns
the fresh array whose memory went through the three phases. -/
theorem detect_of_valid [Add α] [Mul α] [Neg α] [OfNat α 2] [Zero α] [DecidableEq α]
    (F G : PyArrayObject α) (b : α)
    (hv : Valid F G) :
    detect F G b =
      { allocations := 1
        err := none
        ret := some
          { (PyArray_SimpleNew2 (F.dimensions 0) (F.dimensions 1) : PyArrayObject α) with
            data := load (invalidate_edges G
              (PyArray_SimpleNew2 (F.dimensions 0) (F.dimensions 1))
              (accumulate F G (PyArray_SimpleNew2 (F.dimensions 0) (F.dimensions 1))
                (zero_out (PyArray_SimpleNew2 (F.dimensions 0) (F.dimensions 1)) b []))) }
        crashed := false } := by
  obtain ⟨h1, h2, h3, h4, h5, h6⟩ := hv
  simp [detect, h1, h2, h3, h4, h5, h6]

/-- Border cells of the returned score map hold `-2`. -/
theorem detect_border_cell [Add α] [Mul α] [Neg α] [OfNat α 2] [Zero α] [DecidableEq α]
    (F G : PyArrayObject α) (b : α)
    (hv : Valid F G) (y x : Nat) (hy : y < F.dimensions 0) (hx : x < F.dimensions 1)
    (hb : (y : Int) < top_pad G.dimensions ∨
      (F.dimensions 0 : Int) - bottom_pad G.dimensions ≤ y ∨
      (x : Int) < left_pad G.dimensions ∨
      (F.dimensions 1 : Int) - right_pad G.dimensions ≤ x) :
    ∃ S, (detect F G b).ret = some S ∧ S.get2 y x = -2 := by
  rw [detect_of_valid F G b hv]
  exact ⟨_, rfl, invalidate_edges_border G _ _ _ y x hy hx hb⟩

/-- Cells outside the border strips hold `-bias` plus what the accumulation
added at their offset. -/
theorem detect_inner_cell [CommRing α] [DecidableEq α] (F G : PyArrayObject α) (b : α)
    (hv : Valid F G) (y x : Nat)
    (hy1 : top_pad G.dimensions ≤ y)
    (hy2 : (y : Int) < (F.dimensions 0 : Int) - bottom_pad G.dimensions)
    (hx1 : left_pad G.dimensions ≤ x)
    (hx2 : (x : Int) < (F.dimensions 1 : Int) - right_pad G.dimensions)
    (hyH : y < F.dimensions 0) (hxW : x < F.dimensions 1) :
    ∃ S, (detect F G b).ret = some S ∧
      S.get2 y x = -b + contribution F G
        (PyArray_SimpleNew2 (F.dimensions 0) (F.dimensions 1))
        (PyArray_GETPTR2
          (PyArray_SimpleNew2 (F.dimensions 0) (F.dimensions 1) : PyArrayObject α) y x) := by
  rw [detect_of_valid F G b hv]
  refine ⟨_, rfl, ?_⟩
  show load _ (PyArray_GETPTR2
    (PyArray_SimpleNew2 (F.dimensions 0) (F.dimensions 1) : PyArrayObject α) y x) = _
  rw [invalidate_edges_inner G _ _ _ y x hy1 hy2 hx1 hx2 hxW, accumulate_load,
    zero_out_cell _ _ b _ y x hyH hxW]

/-- With a filter of at least one axis, the call fails at the first check that
does not hold, in source order. -/
theorem detect_first_failure [Add α] [Mul α] [Neg α] [OfNat α 2] [Zero α] [DecidableEq α]
    (F G : PyArrayObject α)
    (b : α) (c : Check) (hnd : G.nd ≠ 0) (hc : ¬ c.holds F G)
    (hbefore : ∀ c' : Check, c'.toCtorIdx < c.toCtorIdx → c'.holds F G) :
    detect F G b = raiseTypeError c.signal.message := by
  have h0 := hbefore Check.featuresNdim
  have h1 := hbefore Check.filterNdim
  have h2 := hbefore Check.featuresType
  have h3 := hbefore Check.filterType
  have h4 := hbefore Check.featuresChannels
  cases c <;>
    simp only [Check.holds, Check.toCtorIdx, Nat.lt_irrefl, Nat.not_lt_zero, IsEmpty.forall_iff,
      forall_true_left, Nat.zero_lt_succ, Nat.lt_add_one, Nat.reduceLT] at hc h0 h1 h2 h3 h4 <;>
    simp [detect, Check.signal, *]

/-- A loop whose body changes nothing changes nothing. -/
theorem forLoop_id {σ : Type} (lo hi : Int) (body : Int → σ → σ)
    (h : ∀ a s, body a s = s) (s : σ) : forLoop lo hi body s = s := by
  unfold forLoop
  induction (List.range (hi - lo).toNat) generalizing s with
  | nil => rfl
  | cons t ts ih => rw [List.foldl_cons, h, ih]

/-- A loop over an empty range changes nothing. -/
theorem forLoop_empty {σ : Type} (lo hi : Int) (body : Int → σ → σ) (hle : hi ≤ lo) (s : σ) :
    forLoop lo hi body s = s := by
  unfold forLoop
  have : (hi - lo).toNat = 0 := by omega
  rw [this]
  rfl

end Lemmas

/-- The position of a check is its constructor index. -/
theorem Check.position_eq (c : Check) : c.position = c.toCtorIdx := by
  cases c <;> rfl

/-- The returned pointer of a call is one array. -/
theorem ret_unique {α : Type} {o : Outcome α} {S S' : PyArrayObject α}
    (h : o.ret = some S) (h' : o.ret = some S') : S' = S :=
  Option.some.inj (h'.symm.trans h)

/-- For a filter of the spatial size of the features, the accumulation adds at
the single cell `(top_pad, left_pad)` the full sum of products, whatever the
layout of the features. -/
theorem contribution_full_size {α : Type} [Inhabited α] [CommRing α] (F G : PyArrayObject α)
    (hh : G.dimensions 0 = F.dimensions 0) (hw : G.dimensions 1 = F.dimensions 1) :
    contribution F G (PyArray_SimpleNew2 (F.dimensions 0) (F.dimensions 1))
        (PyArray_GETPTR2
          (PyArray_SimpleNew2 (F.dimensions 0) (F.dimensions 1) : PyArrayObject α)
          (top_pad G.dimensions) (left_pad G.dimensions))
      = ∑ l ∈ Finset.range 32, ∑ i ∈ Finset.range (G.dimensions 0),
          ∑ j ∈ Finset.range (G.dimensions 1), G.get3 i j l * F.get3 i j l := by
  unfold contribution
  apply Finset.sum_congr rfl
  intro l _
  apply Finset.sum_congr rfl
  intro i _
  apply Finset.sum_congr rfl
  intro j _
  have e0 : ((F.dimensions 0 : Int) - G.dimensions 0 + 1).toNat = 1 := by omega
  have e1 : ((F.dimensions 1 : Int) - G.dimensions 1 + 1).toNat = 1 := by omega
  have e2 : (1 : Int) - ((F.dimensions 1 : Int) - G.dimensions 1 + 1) = 0 := by omega
  rw [e0, e1, e2]
  simp only [Finset.sum_range_one, Nat.cast_zero, zero_mul, add_zero, mul_zero, ite_self,
    zero_add]
  refine (if_pos ?_).trans rfl
  rfl

/-- The accumulated sum is additive in the filter's logical elements. -/
theorem contribution_add {α : Type} [CommRing α] (F G1 G2 G12 S : PyArrayObject α) (q : Int)
    (hd1 : G1.dimensions 0 = G12.dimensions 0 ∧ G1.dimensions 1 = G12.dimensions 1)
    (hd2 : G2.dimensions 0 = G12.dimensions 0 ∧ G2.dimensions 1 = G12.dimensions 1)
    (hsum : ∀ i j l : Nat, i < G12.dimensions 0 → j < G12.dimensions 1 → l < 32 →
      G12.get3 i j l = G1.get3 i j l + G2.get3 i j l) :
    contribution F G12 S q = contribution F G1 S q + contribution F G2 S q := by
  unfold contribution
  rw [hd1.1, hd1.2, hd2.1, hd2.2]
  simp only [← Finset.sum_add_distrib]
  apply Finset.sum_congr rfl
  intro l hl
  apply Finset.sum_congr rfl
  intro i hi
  apply Finset.sum_congr rfl
  intro j hj
  apply Finset.sum_congr rfl
  intro k _
  apply Finset.sum_congr rfl
  intro t _
  have hz := hsum i j l (Finset.mem_range.mp hi) (Finset.mem_range.mp hj)
    (Finset.mem_range.mp hl)
  unfold PyArrayObject.get3 at hz
  rw [hz, add_mul]
  split_ifs <;> simp

/-- The data of the array returned by a call that passes the checks is the
memory written by `detect_writes`. -/
theorem detect_data_eq_writes {α : Type} [Inhabited α] [Add α] [Mul α] [Neg α] [OfNat α 2]
    [Zero α] [DecidableEq α]
    (F G : PyArrayObject α) (b : α) (hv : Valid F G) :
    ∃ S, (detect F G b).ret = some S ∧ S.data = load (detect_writes F G b) := by
  rw [detect_of_valid F G b hv]
  exact ⟨_, rfl, rfl⟩

/-! ## The offsets written by the loops -/

/-- Writes at offsets other than `q` do not change what is loaded at `q`. -/
theorem load_append_of_ne {α : Type} [Inhabited α] (added m : Mem α) (q : Int)
    (h : ∀ v, (q, v) ∉ added) : load (added ++ m) q = load m q := by
  induction added with
  | nil => rfl
  | cons e rest ih =>
    obtain ⟨p, v⟩ := e
    have hne : q ≠ p := by
      intro heq
      exact h v (by rw [heq]; exact List.mem_cons_self _ _)
    show (if q = p then v else load (rest ++ m) q) = load m q
    rw [if_neg hne]
    exact ih (fun v' hv' => h v' (List.mem_cons_of_mem _ hv'))

/-- A transformer leaves alone the offsets it does not write. -/
theorem load_of_appends {α : Type} [Inhabited α] (T : Mem α → Mem α) (A : Int → Prop)
    (hT : Appends T A) (m : Mem α) (q : Int) (hq : ¬ A q) : load (T m) q = load m q := by
  obtain ⟨added, e, hA⟩ := hT m
  rw [e]
  exact load_append_of_ne added m q (fun v hv => hq ((hA q).1 ⟨v, hv⟩))

/-- Every write in the log after a transformer is one it added or an older one. -/
theorem mem_of_appends {α : Type} (T : Mem α → Mem α) (A : Int → Prop)
    (hT : Appends T A) (m : Mem α) (p : Int) (v : α) (h : (p, v) ∈ T m) :
    A p ∨ (p, v) ∈ m := by
  obtain ⟨added, e, hA⟩ := hT m
  rw [e] at h
  rcases List.mem_append.mp h with h1 | h1
  · exact Or.inl ((hA p).1 ⟨v, h1⟩)
  · exact Or.inr h1

/-- Every offset of `A` has a write in the log after the transformer. -/
theorem written_of_appends {α : Type} (T : Mem α → Mem α) (A : Int → Prop)
    (hT : Appends T A) (m : Mem α) (p : Int) (h : A p) : ∃ v, (p, v) ∈ T m := by
  obtain ⟨added, e, hA⟩ := hT m
  obtain ⟨v, hv⟩ := (hA p).2 h
  exact ⟨v, by rw [e]; exact List.mem_append.mpr (Or.inl hv)⟩

theorem appends_store {α : Type} (p : Int) (val : Mem α → α) :
    Appends (fun m => store m p (val m)) (fun q => q = p) := by
  intro m
  refine ⟨[(p, val m)], rfl, fun q => ⟨?_, ?_⟩⟩
  · rintro ⟨v, hv⟩
    have := List.mem_singleton.mp hv
    exact congrArg Prod.fst this
  · intro hq
    exact ⟨val m, by rw [hq]; exact List.mem_singleton.mpr rfl⟩

theorem appends_foldl_range {α : Type} (step : Mem α → Nat → Mem α) (A : Nat → Int → Prop)
    (n : Nat) (h : ∀ t, t < n → Appends (fun m => step m t) (A t)) :
    Appends (fun m => (List.range n).foldl step m) (fun q => ∃ t, t < n ∧ A t q) := by
  induction n with
  | zero =>
    intro m
    refine ⟨[], rfl, fun q => ⟨?_, ?_⟩⟩
    · rintro ⟨v, hv⟩; exact absurd hv (List.not_mem_nil _)
    · rintro ⟨t, ht, -⟩; exact absurd ht (Nat.not_lt_zero t)
  | succ n ih =>
    intro m
    obtain ⟨a1, e1, h1⟩ := ih (fun t ht => h t (Nat.lt_succ_of_lt ht)) m
    obtain ⟨a2, e2, h2⟩ := h n (Nat.lt_succ_self n) ((List.range n).foldl step m)
    refine ⟨a2 ++ a1, ?_, fun q => ⟨?_, ?_⟩⟩
    · simp only [List.range_succ, List.foldl_append, List.foldl_cons, List.foldl_nil]
      rw [List.append_assoc, ← e1]
      exact e2
    · rintro ⟨v, hv⟩
      rcases List.mem_append.mp hv with hv | hv
      · exact ⟨n, Nat.lt_succ_self n, (h2 q).1 ⟨v, hv⟩⟩
      · obtain ⟨t, ht, hA⟩ := (h1 q).1 ⟨v, hv⟩
        exact ⟨t, Nat.lt_succ_of_lt ht, hA⟩
    · rintro ⟨t, ht, hA⟩
      rcases Nat.lt_succ_iff_lt_or_eq.mp ht with ht | ht
      · obtain ⟨v, hv⟩ := (h1 q).2 ⟨t, ht, hA⟩
        exact ⟨v, List.mem_append.mpr (Or.inr hv)⟩
      · subst ht
        obtain ⟨v, hv⟩ := (h2 q).2 hA
        exact ⟨v, List.mem_append.mpr (Or.inl hv)⟩

theorem appends_forLoop {α : Type} (lo hi : Int) (body : Int → Mem α → Mem α)
    (A : Nat → Int → Prop)
    (h : ∀ t : Nat, t < (hi - lo).toNat → Appends (body (lo + (t : Int))) (A t)) :
    Appends (forLoop lo hi body) (fun q => ∃ t : Nat, t < (hi - lo).toNat ∧ A t q) :=
  appends_foldl_range (fun acc (t : Nat) => body (lo + (t : Int)) acc) A _ h

theorem appends_comp {α : Type} (T1 T2 : Mem α → Mem α) (A1 A2 : Int → Prop)
    (h1 : Appends T1 A1) (h2 : Appends T2 A2) :
    Appends (fun m => T2 (T1 m)) (fun q => A1 q ∨ A2 q) := by
  intro m
  obtain ⟨a1, e1, g1⟩ := h1 m
  obtain ⟨a2, e2, g2⟩ := h2 (T1 m)
  refine ⟨a2 ++ a1, ?_, fun q => ⟨?_, ?_⟩⟩
  · show T2 (T1 m) = a2 ++ a1 ++ m
    rw [List.append_assoc, ← e1]
    exact e2
  · rintro ⟨v, hv⟩
    rcases List.mem_append.mp hv with hv | hv
    · exact Or.inr ((g2 q).1 ⟨v, hv⟩)
    · exact Or.inl ((g1 q).1 ⟨v, hv⟩)
  · rintro (hq | hq)
    · obtain ⟨v, hv⟩ := (g1 q).2 hq
      exact ⟨v, List.mem_append.mpr (Or.inr hv)⟩
    · obtain ⟨v, hv⟩ := (g2 q).2 hq
      exact ⟨v, List.mem_append.mpr (Or.inl hv)⟩

/-- A transformer that writes the offsets of `A` writes those of an equivalent `B`. -/
theorem appends_congr {α : Type} (T : Mem α → Mem α) (A B : Int → Prop)
    (hT : Appends T A) (hAB : ∀ p, A p ↔ B p) : Appends T B := by
  intro m
  obtain ⟨added, e, hA⟩ := hT m
  exact ⟨added, e, fun p => (hA p).trans (hAB p)⟩

/-- The offsets written by a rectangle of stores. -/
theorem appends_rect {α : Type} (v : α) (S : PyArrayObject α) (alo ahi blo bhi : Int) :
    Appends
      (forLoop alo ahi (fun a mem =>
        forLoop blo bhi (fun b mem => store mem (PyArray_GETPTR2 S a b) v) mem))
      (fun q => ∃ t : Nat, t < (ahi - alo).toNat ∧ ∃ u : Nat, u < (bhi - blo).toNat ∧
        q = PyArray_GETPTR2 S (alo + (t : Int)) (blo + (u : Int))) := by
  apply appends_forLoop
  intro t _
  apply appends_forLoop
  intro u _
  exact appends_store _ (fun _ => v)

/-- The offsets written by one `cblas_saxpy`: none when `alpha` is zero. -/
theorem appends_cblas_saxpy {α : Type} [Inhabited α] [Add α] [Mul α] [Zero α] [DecidableEq α]
    (N : Int) (alpha : α) (X : Int → α) (x incX y incY : Int) :
    Appends (fun Y => cblas_saxpy N alpha X x incX Y y incY)
      (fun q => alpha ≠ 0 ∧ ∃ t : Nat, t < N.toNat ∧
        q = y + sizeof_float * ((if incY < 0 then (1 - N) * incY else 0) + (t : Int) * incY)) := by
  unfold cblas_saxpy
  by_cases ha : alpha = 0
  · intro m
    refine ⟨[], by simp only [if_pos ha]; rfl, fun q => ⟨?_, ?_⟩⟩
    · rintro ⟨v, hv⟩; exact absurd hv (List.not_mem_nil _)
    · rintro ⟨hne, -⟩; exact absurd ha hne
  · simp only [if_neg ha]
    apply appends_congr _ _ _
      (appends_foldl_range _ (fun (t : Nat) q =>
        q = y + sizeof_float * ((if incY < 0 then (1 - N) * incY else 0) + (t : Int) * incY))
        N.toNat (fun t _ => appends_store _ _))
    intro p
    exact ⟨fun h => ⟨ha, h⟩, fun h => h.2⟩

/-- The offsets written by the initialisation loop. -/
theorem appends_zero_out {α : Type} [Neg α] (S : PyArrayObject α) (bias : α) :
    Appends (zero_out S bias)
      (fun q => ∃ t : Nat, t < (((S.dimensions 0 : Nat) : Int) - 0).toNat ∧
        ∃ u : Nat, u < (((S.dimensions 1 : Nat) : Int) - 0).toNat ∧
        q = PyArray_GETPTR2 S (0 + (t : Int)) (0 + (u : Int))) :=
  appends_rect (-bias) S 0 (S.dimensions 0) 0 (S.dimensions 1)

/-- The offsets written by the accumulation. -/
theorem appends_accumulate {α : Type} [Inhabited α] [Add α] [Mul α] [Zero α] [DecidableEq α]
    (F G S : PyArrayObject α) :
    Appends (accumulate F G S)
      (fun q => ∃ l : Nat, l < ((32 : Int) - 0).toNat ∧
        ∃ i : Nat, i < (((G.dimensions 0 : Nat) : Int) - 0).toNat ∧
        ∃ j : Nat, j < (((G.dimensions 1 : Nat) : Int) - 0).toNat ∧
        ∃ k : Nat, k < ((F.dimensions 0 : Int) - G.dimensions 0 + 1 - 0).toNat ∧
        G.data (PyArray_GETPTR3 G (0 + (i : Int)) (0 + (j : Int)) (0 + (l : Int))) ≠ 0 ∧
        ∃ t : Nat, t < ((F.dimensions 1 : Int) - G.dimensions 1 + 1).toNat ∧
          q = PyArray_GETPTR2 S
                (0 + (k : Int) + Int.tdiv ((G.dimensions 0 : Int) - 1) 2)
                (Int.tdiv ((G.dimensions 1 : Int) - 1) 2)
              + sizeof_float * ((if S.strides 1 / sizeof_float < 0
                  then (1 - ((F.dimensions 1 : Int) - G.dimensions 1 + 1))
                    * (S.strides 1 / sizeof_float) else 0)
                + (t : Int) * (S.strides 1 / sizeof_float))) := by
  unfold accumulate
  apply appends_forLoop
  intro l _
  apply appends_forLoop
  intro i _
  apply appends_forLoop
  intro j _
  apply appends_forLoop
  intro k _
  exact appends_cblas_saxpy _ _ _ _ _ _ _

/-- The offsets written by the four invalidation loops. -/
theorem appends_invalidate_edges {α : Type} [Neg α] [OfNat α 2] (G S : PyArrayObject α) :
    Appends (invalidate_edges G S)
      (fun q =>
        (((∃ t : Nat, t < (top_pad G.dimensions - 0).toNat ∧
            ∃ u : Nat, u < (((S.dimensions 1 : Nat) : Int) - 0).toNat ∧
            q = PyArray_GETPTR2 S (0 + (t : Int)) (0 + (u : Int))) ∨
          (∃ t : Nat, t < (((S.dimensions 0 : Nat) : Int)
              - ((S.dimensions 0 : Int) - bottom_pad G.dimensions)).toNat ∧
            ∃ u : Nat, u < (((S.dimensions 1 : Nat) : Int) - 0).toNat ∧
            q = PyArray_GETPTR2 S ((S.dimensions 0 : Int) - bottom_pad G.dimensions + (t : Int))
              (0 + (u : Int)))) ∨
          (∃ t : Nat, t < (((S.dimensions 0 : Nat) : Int) - 0).toNat ∧
            ∃ u : Nat, u < (left_pad G.dimensions - 0).toNat ∧
            q = PyArray_GETPTR2 S (0 + (t : Int)) (0 + (u : Int)))) ∨
          (∃ t : Nat, t < (((S.dimensions 0 : Nat) : Int) - 0).toNat ∧
            ∃ u : Nat, u < (((S.dimensions 1 : Nat) : Int)
              - ((S.dimensions 1 : Int) - right_pad G.dimensions)).toNat ∧
            q = PyArray_GETPTR2 S (0 + (t : Int))
              ((S.dimensions 1 : Int) - right_pad G.dimensions + (u : Int)))) := by
  unfold invalidate_edges
  exact appends_comp _ _ _ _
    (appends_comp _ _ _ _
      (appends_comp _ _ _ _ (appends_rect _ S _ _ _ _) (appends_rect _ S _ _ _ _))
      (appends_rect _ S _ _ _ _))
    (appends_rect _ S _ _ _ _)

/-- A loop keeps what each of its iterations keeps. -/
theorem forLoop_invariant {σ : Type} (Inv : σ → Prop) (lo hi : Int) (body : Int → σ → σ)
    (h : ∀ t : Nat, t < (hi - lo).toNat → ∀ s, Inv s → Inv (body (lo + (t : Int)) s))
    (s : σ) (hs : Inv s) : Inv (forLoop lo hi body s) := by
  unfold forLoop
  generalize (hi - lo).toNat = n at h
  induction n with
  | zero => exact hs
  | succ n ih =>
    rw [List.range_succ, List.foldl_append]
    exact h n (Nat.lt_succ_self n) _ (ih (fun t ht => h t (Nat.lt_succ_of_lt ht)))

/-- An offset computed from a row and a column within the extents of the fresh
score map is within its bounds. -/
theorem inBounds2_fresh {α : Type} [Inhabited α] (H W : Nat) (a b : Int)
    (ha0 : 0 ≤ a) (haH : a < H) (hb0 : 0 ≤ b) (hbW : b < W) :
    InBounds2 (PyArray_SimpleNew2 H W : PyArrayObject α)
      (PyArray_GETPTR2 (PyArray_SimpleNew2 H W : PyArrayObject α) a b) := by
  refine ⟨a.toNat, ?_, b.toNat, ?_, ?_⟩
  · show a.toNat < H
    omega
  · show b.toNat < W
    omega
  · congr 1 <;> omega

/-- The target of element `t` of a `cblas_saxpy` on the fresh score map, started
at row `r` and column `c`, is the cell `(r, c + t)`. -/
theorem accumulate_target_fresh {α : Type} [Inhabited α] (H W : Nat) (r c N : Int) (t : Nat) :
    PyArray_GETPTR2 (PyArray_SimpleNew2 H W : PyArrayObject α) r c
      + sizeof_float * ((if (PyArray_SimpleNew2 H W : PyArrayObject α).strides 1 / sizeof_float < 0
          then (1 - N) * ((PyArray_SimpleNew2 H W : PyArrayObject α).strides 1 / sizeof_float)
          else 0)
        + (t : Int) * ((PyArray_SimpleNew2 H W : PyArrayObject α).strides 1 / sizeof_float))
      = PyArray_GETPTR2 (PyArray_SimpleNew2 H W : PyArrayObject α) r (c + (t : Int)) := by
  have hs1 : (PyArray_SimpleNew2 H W : PyArrayObject α).strides 1 / sizeof_float = 1 := by
    simp [PyArray_SimpleNew2, sizeof_float]
  rw [hs1]
  simp only [if_neg (show ¬ (1 : Int) < 0 by decide), getptr2_fresh, zero_add, mul_one,
    sizeof_float]
  ring

/-- The source of element `t` of a `cblas_saxpy` on features in forward rows,
started at `F[r, c, l]`, is `F[r, c + t, l]`. -/
theorem accumulate_source_forward {α : Type} (F : PyArrayObject α) (hlay : ForwardRows F)
    (r c l N : Int) (t : Nat) :
    PyArray_GETPTR3 F r c l
      + sizeof_float * ((if F.strides 1 / sizeof_float < 0
          then (1 - N) * (F.strides 1 / sizeof_float) else 0)
        + (t : Int) * (F.strides 1 / sizeof_float))
      = PyArray_GETPTR3 F r (c + (t : Int)) l := by
  obtain ⟨hc0, k, hk⟩ := hlay
  have hsF : F.strides 1 / sizeof_float = k := by
    rw [hk]; simp [sizeof_float]
  have hknn : ¬ k < 0 := by
    have : (0 : Int) ≤ sizeof_float * k := hk ▸ hc0
    simp only [sizeof_float] at this
    omega
  rw [hsF, if_neg hknn]
  unfold PyArray_GETPTR3
  rw [hk]
  ring

/-- For an input that passes the checks with features in forward rows, every
read of the accumulation is within the bounds of the array it reads. -/
theorem accumulate_reads_inBounds {α : Type} [Zero α] [DecidableEq α] (F G : PyArrayObject α)
    (hv : Valid F G) (hlay : ForwardRows F) :
    ∀ a ∈ accumulate_reads F G [], a.inBounds F G := by
  obtain ⟨-, -, -, -, hF32, hG32⟩ := hv
  unfold accumulate_reads
  apply forLoop_invariant (fun tr : List Access => ∀ a ∈ tr, a.inBounds F G)
  · intro l hl tr htr
    apply forLoop_invariant (fun tr : List Access => ∀ a ∈ tr, a.inBounds F G) _ _ _ _ _ htr
    intro i hi tr htr
    apply forLoop_invariant (fun tr : List Access => ∀ a ∈ tr, a.inBounds F G) _ _ _ _ _ htr
    intro j hj tr htr
    apply forLoop_invariant (fun tr : List Access => ∀ a ∈ tr, a.inBounds F G)
    · intro k hk tr htr a ha
      rcases List.mem_append.mp ha with ha | ha
      · exact htr a ha
      · obtain ⟨p, hp, rfl⟩ := List.mem_map.mp ha
        unfold cblas_saxpy_reads at hp
        split at hp
        · exact absurd hp (List.not_mem_nil _)
        obtain ⟨t, ht, rfl⟩ := List.mem_map.mp hp
        have ht2 := List.mem_range.mp ht
        rw [accumulate_source_forward F hlay]
        refine ⟨i + k, by omega, j + t, by omega, l, by omega, ?_⟩
        congr 1 <;> push_cast <;> ring
    · intro a ha
      rcases List.mem_append.mp ha with ha | ha
      · exact htr a ha
      · rw [List.mem_singleton.mp ha]
        refine ⟨i, by omega, j, by omega, l, by omega, ?_⟩
        congr 1 <;> simp
  · intro a ha
    exact absurd ha (List.not_mem_nil _)

/-- With `1 <= h <= H` and `1 <= w <= W`, every write of a call lands on a
cell of the score map. -/
theorem detect_writes_inBounds {α : Type} [Inhabited α] [Add α] [Mul α] [Neg α] [OfNat α 2]
    [Zero α] [DecidableEq α]
    (F G : PyArrayObject α) (b : α)
    (hh : 1 ≤ G.dimensions 0 ∧ G.dimensions 0 ≤ F.dimensions 0)
    (hw : 1 ≤ G.dimensions 1 ∧ G.dimensions 1 ≤ F.dimensions 1)
    (p : Int) (v : α) (hp : (p, v) ∈ detect_writes F G b) :
    InBounds2 (PyArray_SimpleNew2 (F.dimensions 0) (F.dimensions 1) : PyArrayObject α) p := by
  have htp := tdiv_pad_bounds (G.dimensions 0) hh.1
  have hlp := tdiv_pad_bounds (G.dimensions 1) hw.1
  have etp : top_pad G.dimensions = Int.tdiv ((G.dimensions 0 : Int) - 1) 2 := rfl
  have elp : left_pad G.dimensions = Int.tdiv ((G.dimensions 1 : Int) - 1) 2 := rfl
  have ebp : bottom_pad G.dimensions = (G.dimensions 0 : Int) - 1 - top_pad G.dimensions := rfl
  have erp : right_pad G.dimensions = (G.dimensions 1 : Int) - 1 - left_pad G.dimensions := rfl
  have d0 : (PyArray_SimpleNew2 (F.dimensions 0) (F.dimensions 1) : PyArrayObject α).dimensions 0
      = F.dimensions 0 := by simp [PyArray_SimpleNew2]
  have d1 : (PyArray_SimpleNew2 (F.dimensions 0) (F.dimensions 1) : PyArrayObject α).dimensions 1
      = F.dimensions 1 := by simp [PyArray_SimpleNew2]
  unfold detect_writes at hp
  rcases mem_of_appends _ _ (appends_invalidate_edges G _) _ p v hp with hA | hp
  · rw [d0, d1] at hA
    rcases hA with ((⟨t, ht, u, hu, e⟩ | ⟨t, ht, u, hu, e⟩) | ⟨t, ht, u, hu, e⟩) | ⟨t, ht, u, hu, e⟩
    all_goals
      rw [e]
      apply inBounds2_fresh <;> omega
  · rcases mem_of_appends _ _ (appends_accumulate F G _) _ p v hp with hA | hp
    · obtain ⟨l, _, i, _, j, _, k, hk, _, t, ht, e⟩ := hA
      rw [e, accumulate_target_fresh, ← etp, ← elp]
      apply inBounds2_fresh <;> omega
    · rcases mem_of_appends _ _ (appends_zero_out _ b) _ p v hp with hA | hp
      · rw [d0, d1] at hA
        obtain ⟨t, ht, u, hu, e⟩ := hA
        rw [e]
        apply inBounds2_fresh <;> omega
      · exact absurd hp (List.not_mem_nil _)

/-- With `1 <= h <= H` and `1 <= w <= W` the accumulation writes exactly the
cells outside the four border strips if some weight of the filter is not
zero, and nothing if all weights are zero. -/
theorem appends_accumulate_fresh {α : Type} [Inhabited α] [Add α] [Mul α] [Zero α] [DecidableEq α]
    (F G : PyArrayObject α)
    (hh : 1 ≤ G.dimensions 0 ∧ G.dimensions 0 ≤ F.dimensions 0)
    (hw : 1 ≤ G.dimensions 1 ∧ G.dimensions 1 ≤ F.dimensions 1) :
    Appends (accumulate F G (PyArray_SimpleNew2 (F.dimensions 0) (F.dimensions 1)))
      (fun p => (∃ i j l : Nat, i < G.dimensions 0 ∧ j < G.dimensions 1 ∧ l < 32 ∧
          G.get3 i j l ≠ 0) ∧
        ∃ y x : Nat, top_pad G.dimensions ≤ y ∧
        (y : Int) < (F.dimensions 0 : Int) - bottom_pad G.dimensions ∧
        left_pad G.dimensions ≤ x ∧
        (x : Int) < (F.dimensions 1 : Int) - right_pad G.dimensions ∧
        p = PyArray_GETPTR2
          (PyArray_SimpleNew2 (F.dimensions 0) (F.dimensions 1) : PyArrayObject α) y x) := by
  have htp := tdiv_pad_bounds (G.dimensions 0) hh.1
  have hlp := tdiv_pad_bounds (G.dimensions 1) hw.1
  have etp : top_pad G.dimensions = Int.tdiv ((G.dimensions 0 : Int) - 1) 2 := rfl
  have elp : left_pad G.dimensions = Int.tdiv ((G.dimensions 1 : Int) - 1) 2 := rfl
  have ebp : bottom_pad G.dimensions = (G.dimensions 0 : Int) - 1 - top_pad G.dimensions := rfl
  have erp : right_pad G.dimensions = (G.dimensions 1 : Int) - 1 - left_pad G.dimensions := rfl
  apply appends_congr _ _ _ (appends_accumulate F G _)
  intro p
  constructor
  · rintro ⟨l, hl, i, hi, j, hj, k, hk, hne, t, ht, e⟩
    rw [accumulate_target_fresh, ← etp, ← elp] at e
    refine ⟨⟨i, j, l, by omega, by omega, by omega, ?_⟩,
      (0 + (k : Int) + top_pad G.dimensions).toNat,
      (left_pad G.dimensions + (t : Int)).toNat, by omega, by omega, by omega, by omega, ?_⟩
    · simpa [PyArrayObject.get3] using hne
    · rw [e]
      congr 1 <;> omega
  · rintro ⟨⟨i, j, l, hi, hj, hl, hne⟩, y, x, hy1, hy2, hx1, hx2, e⟩
    refine ⟨l, by omega, i, by omega, j, by omega, ((y : Int) - top_pad G.dimensions).toNat,
      by omega, ?_, ((x : Int) - left_pad G.dimensions).toNat, by omega, ?_⟩
    · simpa [PyArrayObject.get3] using hne
    · rw [accumulate_target_fresh, ← etp, ← elp, e]
      congr 1 <;> omega

/-- The offset of a border cell is not the offset of a cell outside the border. -/
theorem border_cell_not_inner {α : Type} [Inhabited α] (G : PyArrayObject α) (H W : Nat)
    (y x : Nat) (hx : x < W)
    (hb : (y : Int) < top_pad G.dimensions ∨ (H : Int) - bottom_pad G.dimensions ≤ y ∨
      (x : Int) < left_pad G.dimensions ∨ (W : Int) - right_pad G.dimensions ≤ x)
    (hw1 : 1 ≤ G.dimensions 1) :
    ¬ ∃ y' x' : Nat, top_pad G.dimensions ≤ y' ∧
        (y' : Int) < (H : Int) - bottom_pad G.dimensions ∧
        left_pad G.dimensions ≤ x' ∧
        (x' : Int) < (W : Int) - right_pad G.dimensions ∧
        PyArray_GETPTR2 (PyArray_SimpleNew2 H W : PyArrayObject α) y x
          = PyArray_GETPTR2 (PyArray_SimpleNew2 H W : PyArrayObject α) y' x' := by
  have hlp := tdiv_pad_bounds (G.dimensions 1) hw1
  have elp : left_pad G.dimensions = Int.tdiv ((G.dimensions 1 : Int) - 1) 2 := rfl
  have erp : right_pad G.dimensions = (G.dimensions 1 : Int) - 1 - left_pad G.dimensions := rfl
  rintro ⟨y', x', hy1, hy2, hx1, hx2, e⟩
  rw [getptr2_fresh, getptr2_fresh] at e
  have := cell_inj _ _ _ _ (W : Int) (by omega) (by omega) (by omega) (by omega) e
  omega

/-! ## The order of the additions at a cell -/

/-- A fold over `List.range n` whose steps each act on the value at offset `q`
by `f t` acts by the composite, first step first. -/
theorem foldl_range_load_acts {α : Type} [Inhabited α] (q : Int) (step : Mem α → Nat → Mem α)
    (f : Nat → α → α) (n : Nat)
    (h : ∀ t, t < n → ∀ m, load (step m t) q = f t (load m q)) (m : Mem α) :
    load ((List.range n).foldl step m) q
      = (List.range n).foldl (fun v t => f t v) (load m q) := by
  induction n with
  | zero => rfl
  | succ n ih =>
    rw [List.range_succ, List.foldl_append, List.foldl_append]
    simp only [List.foldl_cons, List.foldl_nil]
    rw [h n (Nat.lt_succ_self n), ih (fun t ht => h t (Nat.lt_succ_of_lt ht))]

theorem forLoop_load_acts {α : Type} [Inhabited α] (q lo hi : Int)
    (body : Int → Mem α → Mem α) (f : Nat → α → α)
    (h : ∀ t : Nat, t < (hi - lo).toNat → ∀ m, load (body (lo + (t : Int)) m) q = f t (load m q))
    (m : Mem α) :
    load (forLoop lo hi body m) q
      = (List.range (hi - lo).toNat).foldl (fun v t => f t v) (load m q) :=
  foldl_range_load_acts q (fun acc (t : Nat) => body (lo + (t : Int)) acc) f _ h m

/-- A fold of steps that all leave the value alone leaves it alone. -/
theorem foldl_range_none {β : Type} (n : Nat) (f : Nat → β → β)
    (h : ∀ t, t < n → ∀ v, f t v = v) (v : β) :
    (List.range n).foldl (fun v t => f t v) v = v := by
  induction n with
  | zero => rfl
  | succ n ih =>
    rw [List.range_succ, List.foldl_append]
    simp only [List.foldl_cons, List.foldl_nil]
    rw [ih (fun t ht => h t (Nat.lt_succ_of_lt ht)), h n (Nat.lt_succ_self n)]

/-- A fold in which only step `t0` changes the value changes it as that step does. -/
theorem foldl_range_single {β : Type} (n t0 : Nat) (ht0 : t0 < n) (f : Nat → β → β)
    (g : β → β) (h0 : ∀ v, f t0 v = g v)
    (hne : ∀ t, t < n → t ≠ t0 → ∀ v, f t v = v) (v : β) :
    (List.range n).foldl (fun v t => f t v) v = g v := by
  induction n with
  | zero => exact absurd ht0 (Nat.not_lt_zero t0)
  | succ n ih =>
    rw [List.range_succ, List.foldl_append]
    simp only [List.foldl_cons, List.foldl_nil]
    rcases Nat.lt_succ_iff_lt_or_eq.mp ht0 with hlt | heq
    · rw [ih hlt (fun t ht hn => hne t (Nat.lt_succ_of_lt ht) hn),
        hne n (Nat.lt_succ_self n) (by omega)]
    · subst heq
      rw [foldl_range_none t0 f (fun t ht => hne t (Nat.lt_succ_of_lt ht) (by omega)), h0]

/-- With `alpha` zero, `cblas_saxpy` returns the memory it was given. -/
theorem cblas_saxpy_zero {α : Type} [Inhabited α] [Add α] [Mul α] [Zero α] [DecidableEq α]
    (N : Int) (X : Int → α) (x incX : Int) (Y : Mem α) (y incY : Int) :
    cblas_saxpy N 0 X x incX Y y incY = Y := by
  unfold cblas_saxpy
  rw [if_pos rfl]

/-- What one `cblas_saxpy` with a non-zero `alpha` does to the value at offset
`q`, element by element. -/
theorem cblas_saxpy_load_acts {α : Type} [Inhabited α] [Add α] [Mul α] [Zero α] [DecidableEq α]
    (N : Int) (alpha : α) (ha : alpha ≠ 0)
    (X : Int → α) (x incX : Int) (Y : Mem α) (y incY q : Int) :
    load (cblas_saxpy N alpha X x incX Y y incY) q
      = (List.range N.toNat).foldl
          (fun v (t : Nat) =>
            if q = y + sizeof_float * ((if incY < 0 then (1 - N) * incY else 0) + (t : Int) * incY)
            then v + alpha * X (x + sizeof_float
              * ((if incX < 0 then (1 - N) * incX else 0) + (t : Int) * incX))
            else v)
          (load Y q) := by
  unfold cblas_saxpy
  rw [if_neg ha]
  apply foldl_range_load_acts q _
    (fun (t : Nat) v =>
      if q = y + sizeof_float * ((if incY < 0 then (1 - N) * incY else 0) + (t : Int) * incY)
      then v + alpha * X (x + sizeof_float
        * ((if incX < 0 then (1 - N) * incX else 0) + (t : Int) * incX))
      else v)
  intro t _ m
  rw [load_store]
  by_cases hq : q = y + sizeof_float * ((if incY < 0 then (1 - N) * incY else 0) + (t : Int) * incY)
  · rw [if_pos hq, if_pos hq, ← hq]
  · rw [if_neg hq, if_neg hq]

/-- The loop over the rows `k` (lines 78-82) for one non-zero weight `alpha`
and one filter offset adds to a cell of the valid region exactly one product. -/
theorem rows_loop_cell {α : Type} [Inhabited α] [Add α] [Mul α] [Zero α] [DecidableEq α]
    (F G : PyArrayObject α) (alpha : α) (ha : alpha ≠ 0) (i j l : Int) (y x : Nat)
    (hlay : ForwardRows F) (hh1 : 1 ≤ G.dimensions 0) (hw1 : 1 ≤ G.dimensions 1)
    (hy1 : top_pad G.dimensions ≤ y)
    (hy2 : (y : Int) ≤ top_pad G.dimensions + F.dimensions 0 - G.dimensions 0)
    (hx1 : left_pad G.dimensions ≤ x)
    (hx2 : (x : Int) ≤ left_pad G.dimensions + F.dimensions 1 - G.dimensions 1)
    (m : Mem α) :
    load (forLoop 0 ((F.dimensions 0 : Int) - G.dimensions 0 + 1) (fun k mem =>
        cblas_saxpy ((F.dimensions 1 : Int) - G.dimensions 1 + 1) alpha
          F.data (PyArray_GETPTR3 F (i + k) j l) (F.strides 1 / sizeof_float) mem
          (PyArray_GETPTR2
            (PyArray_SimpleNew2 (F.dimensions 0) (F.dimensions 1) : PyArrayObject α)
            (k + Int.tdiv ((G.dimensions 0 : Int) - 1) 2)
            (Int.tdiv ((G.dimensions 1 : Int) - 1) 2))
          ((PyArray_SimpleNew2 (F.dimensions 0) (F.dimensions 1) : PyArrayObject α).strides 1
            / sizeof_float)) m)
      (PyArray_GETPTR2
        (PyArray_SimpleNew2 (F.dimensions 0) (F.dimensions 1) : PyArrayObject α) y x)
    = load m (PyArray_GETPTR2
        (PyArray_SimpleNew2 (F.dimensions 0) (F.dimensions 1) : PyArrayObject α) y x)
      + alpha * F.data (PyArray_GETPTR3 F ((y : Int) + i - top_pad G.dimensions)
          ((x : Int) + j - left_pad G.dimensions) l) := by
  have htp := tdiv_pad_bounds (G.dimensions 0) hh1
  have hlp := tdiv_pad_bounds (G.dimensions 1) hw1
  have etp : top_pad G.dimensions = Int.tdiv ((G.dimensions 0 : Int) - 1) 2 := rfl
  have elp : left_pad G.dimensions = Int.tdiv ((G.dimensions 1 : Int) - 1) 2 := rfl
  rw [← etp] at htp
  rw [← elp] at hlp
  rw [← etp, ← elp]
  have ek : ((((y : Int) - top_pad G.dimensions).toNat : Nat) : Int)
      = (y : Int) - top_pad G.dimensions := by omega
  have et : ((((x : Int) - left_pad G.dimensions).toNat : Nat) : Int)
      = (x : Int) - left_pad G.dimensions := by omega
  -- which strip elements hit the cell
  have hit : ∀ (k t : Nat), k < ((F.dimensions 0 : Int) - G.dimensions 0 + 1 - 0).toNat →
      t < ((F.dimensions 1 : Int) - G.dimensions 1 + 1).toNat →
      (PyArray_GETPTR2
          (PyArray_SimpleNew2 (F.dimensions 0) (F.dimensions 1) : PyArrayObject α) y x
        = PyArray_GETPTR2
          (PyArray_SimpleNew2 (F.dimensions 0) (F.dimensions 1) : PyArrayObject α)
          (0 + (k : Int) + top_pad G.dimensions) (left_pad G.dimensions + (t : Int))
        ↔ k = ((y : Int) - top_pad G.dimensions).toNat ∧
          t = ((x : Int) - left_pad G.dimensions).toNat) := by
    intro k t hk ht
    rw [getptr2_fresh, getptr2_fresh]
    constructor
    · intro e
      have := cell_inj _ _ _ _ (F.dimensions 1 : Int) (by omega) (by omega) (by omega)
        (by omega) e.symm
      omega
    · rintro ⟨rfl, rfl⟩
      rw [ek, et]
      ring
  rw [forLoop_load_acts _ 0 _ _
    (fun (k : Nat) v => if k = ((y : Int) - top_pad G.dimensions).toNat
      then v + alpha * F.data (PyArray_GETPTR3 F ((y : Int) + i - top_pad G.dimensions)
          ((x : Int) + j - left_pad G.dimensions) l)
      else v)]
  · rw [foldl_range_single _ ((y : Int) - top_pad G.dimensions).toNat (by omega) _
      (fun v => v + alpha * F.data (PyArray_GETPTR3 F ((y : Int) + i - top_pad G.dimensions)
          ((x : Int) + j - left_pad G.dimensions) l))]
    · intro v
      rw [if_pos rfl]
    · intro k _ hne v
      rw [if_neg hne]
  · intro k hk m
    rw [cblas_saxpy_load_acts _ _ ha]
    simp only [accumulate_target_fresh, accumulate_source_forward F hlay]
    by_cases hk0 : k = ((y : Int) - top_pad G.dimensions).toNat
    · rw [if_pos hk0]
      rw [foldl_range_single _ ((x : Int) - left_pad G.dimensions).toNat (by omega) _
        (fun v => v + alpha * F.data (PyArray_GETPTR3 F ((y : Int) + i - top_pad G.dimensions)
          ((x : Int) + j - left_pad G.dimensions) l))]
      · intro v
        rw [if_pos ((hit k _ hk (by omega)).2 ⟨hk0, rfl⟩), hk0, ek, et]
        have e1 : i + (0 + ((y : Int) - top_pad G.dimensions))
            = (y : Int) + i - top_pad G.dimensions := by ring
        have e2 : j + ((x : Int) - left_pad G.dimensions)
            = (x : Int) + j - left_pad G.dimensions := by ring
        rw [e1, e2]
      · intro t ht hne v
        rw [if_neg (fun e => hne ((hit k t hk ht).1 e).2)]
    · rw [if_neg hk0]
      exact foldl_range_none _ _ (fun t ht v => by
        rw [if_neg (fun e => hk0 ((hit k t hk ht).1 e).1)]) _

/-- A left fold over a `flatMap` is the nested left fold. -/
theorem foldl_flatMap_eq {β γ δ : Type} (f : δ → γ → δ) (g : β → List γ) (l : List β) (v : δ) :
    List.foldl f v (l.flatMap g) = List.foldl (fun v a => List.foldl f v (g a)) v l := by
  induction l generalizing v with
  | nil => rfl
  | cons a rest ih =>
    rw [List.flatMap_cons, List.foldl_append, List.foldl_cons, ih]

/-- The left fold over `correlation_terms` is the nested fold over channel,
filter row and filter column. -/
theorem foldl_correlation_terms {α : Type} [Add α] [Mul α] (F G : PyArrayObject α) (y x : Int)
    (v : α) :
    List.foldl (fun acc term => acc + term) v (correlation_terms F G y x)
      = (List.range 32).foldl (fun v (l : Nat) =>
          (List.range (G.dimensions 0)).foldl (fun v (i : Nat) =>
            (List.range (G.dimensions 1)).foldl (fun v (j : Nat) =>
              v + G.get3 i j l * F.get3 (y + i - top_pad G.dimensions)
                (x + j - left_pad G.dimensions) l) v) v) v := by
  unfold correlation_terms
  rw [foldl_flatMap_eq]
  simp only [foldl_flatMap_eq, List.foldl_map]

/-- A left fold over the images of the elements that pass a test is the fold
over all elements that skips those failing it. -/
theorem foldl_filter_map {β γ δ : Type} (f : δ → γ → δ) (g : β → γ) (p : β → Bool)
    (l : List β) (v : δ) :
    List.foldl f v ((l.filter p).map g)
      = List.foldl (fun v a => if p a = true then f v (g a) else v) v l := by
  induction l generalizing v with
  | nil => rfl
  | cons a rest ih =>
    by_cases hp : p a = true
    · rw [List.filter_cons_of_pos hp, List.map_cons, List.foldl_cons, List.foldl_cons, ih,
        if_pos hp]
    · rw [List.filter_cons_of_neg hp, List.foldl_cons, ih, if_neg hp]

/-- The left fold over `accumulated_terms` is the nested fold over channel,
filter row and filter column that skips the zero weights. -/
theorem foldl_accumulated_terms {α : Type} [Add α] [Mul α] [Zero α] [DecidableEq α]
    (F G : PyArrayObject α) (y x : Int) (v : α) :
    List.foldl (fun acc term => acc + term) v (accumulated_terms F G y x)
      = (List.range 32).foldl (fun v (l : Nat) =>
          (List.range (G.dimensions 0)).foldl (fun v (i : Nat) =>
            (List.range (G.dimensions 1)).foldl (fun v (j : Nat) =>
              if G.get3 i j l = 0 then v
              else v + G.get3 i j l * F.get3 (y + i - top_pad G.dimensions)
                (x + j - left_pad G.dimensions) l) v) v) v := by
  unfold accumulated_terms
  rw [foldl_flatMap_eq]
  simp only [foldl_flatMap_eq, foldl_filter_map, decide_eq_true_eq, ite_not]

/-- The value that the accumulation leaves in a cell of the valid region, as
the nested fold of the loops: a product is added for every non-zero weight. -/
theorem accumulate_cell_nested {α : Type} [Inhabited α] [Add α] [Mul α] [Zero α] [DecidableEq α]
    (F G : PyArrayObject α)
    (y x : Nat) (hlay : ForwardRows F) (hh1 : 1 ≤ G.dimensions 0) (hw1 : 1 ≤ G.dimensions 1)
    (hy1 : top_pad G.dimensions ≤ y)
    (hy2 : (y : Int) ≤ top_pad G.dimensions + F.dimensions 0 - G.dimensions 0)
    (hx1 : left_pad G.dimensions ≤ x)
    (hx2 : (x : Int) ≤ left_pad G.dimensions + F.dimensions 1 - G.dimensions 1)
    (m : Mem α) :
    load (accumulate F G (PyArray_SimpleNew2 (F.dimensions 0) (F.dimensions 1)) m)
      (PyArray_GETPTR2
        (PyArray_SimpleNew2 (F.dimensions 0) (F.dimensions 1) : PyArrayObject α) y x)
    = (List.range 32).foldl (fun v (l : Nat) =>
        (List.range (G.dimensions 0)).foldl (fun v (i : Nat) =>
          (List.range (G.dimensions 1)).foldl (fun v (j : Nat) =>
            if G.get3 i j l = 0 then v
            else v + G.get3 i j l * F.get3 ((y : Int) + i - top_pad G.dimensions)
              ((x : Int) + j - left_pad G.dimensions) l) v) v)
        (load m (PyArray_GETPTR2
          (PyArray_SimpleNew2 (F.dimensions 0) (F.dimensions 1) : PyArrayObject α) y x)) := by
  unfold accumulate
  have e32 : List.range 32 = List.range ((32 : Int) - 0).toNat := rfl
  have e0 : ∀ n : Nat, List.range n = List.range (((n : Int)) - 0).toNat := by
    intro n; simp
  rw [e32, e0 (G.dimensions 0), e0 (G.dimensions 1)]
  apply forLoop_load_acts _ 0 32 _ (fun (l : Nat) v =>
    (List.range ((G.dimensions 0 : Int) - 0).toNat).foldl (fun v (i : Nat) =>
      (List.range ((G.dimensions 1 : Int) - 0).toNat).foldl (fun v (j : Nat) =>
        if G.get3 i j l = 0 then v
        else v + G.get3 i j l * F.get3 ((y : Int) + i - top_pad G.dimensions)
          ((x : Int) + j - left_pad G.dimensions) l) v) v)
  intro l _ m
  apply forLoop_load_acts _ 0 _ _ (fun (i : Nat) v =>
    (List.range ((G.dimensions 1 : Int) - 0).toNat).foldl (fun v (j : Nat) =>
      if G.get3 i j l = 0 then v
      else v + G.get3 i j l * F.get3 ((y : Int) + i - top_pad G.dimensions)
        ((x : Int) + j - left_pad G.dimensions) l) v)
  intro i _ m
  apply forLoop_load_acts _ 0 _ _ (fun (j : Nat) v =>
    if G.get3 i j l = 0 then v
    else v + G.get3 i j l * F.get3 ((y : Int) + i - top_pad G.dimensions)
      ((x : Int) + j - left_pad G.dimensions) l)
  intro j _ m
  by_cases ha : G.data (PyArray_GETPTR3 G (0 + (i : Int)) (0 + (j : Int)) (0 + (l : Int))) = 0
  · have ha2 : G.get3 i j l = 0 := by simpa [PyArrayObject.get3] using ha
    rw [if_pos ha2, ha]
    congr 1
    exact forLoop_id _ _ _ (fun k s => cblas_saxpy_zero _ _ _ _ _ _ _) m
  · have ha2 : ¬ G.get3 i j l = 0 := by simpa [PyArrayObject.get3] using ha
    rw [if_neg ha2, rows_loop_cell F G _ ha _ _ _ y x hlay hh1 hw1 hy1 hy2 hx1 hx2 m]
    simp only [zero_add]
    rfl

/-- The value that the accumulation leaves in a cell of the valid region: the
products with a non-zero weight added one at a time to what the cell held, in
the order of the loops. -/
theorem accumulate_cell_fold {α : Type} [Inhabited α] [Add α] [Mul α] [Zero α] [DecidableEq α]
    (F G : PyArrayObject α)
    (y x : Nat) (hlay : ForwardRows F) (hh1 : 1 ≤ G.dimensions 0) (hw1 : 1 ≤ G.dimensions 1)
    (hy1 : top_pad G.dimensions ≤ y)
    (hy2 : (y : Int) ≤ top_pad G.dimensions + F.dimensions 0 - G.dimensions 0)
    (hx1 : left_pad G.dimensions ≤ x)
    (hx2 : (x : Int) ≤ left_pad G.dimensions + F.dimensions 1 - G.dimensions 1)
    (m : Mem α) :
    load (accumulate F G (PyArray_SimpleNew2 (F.dimensions 0) (F.dimensions 1)) m)
      (PyArray_GETPTR2
        (PyArray_SimpleNew2 (F.dimensions 0) (F.dimensions 1) : PyArrayObject α) y x)
    = List.foldl (fun acc term => acc + term)
        (load m (PyArray_GETPTR2
          (PyArray_SimpleNew2 (F.dimensions 0) (F.dimensions 1) : PyArrayObject α) y x))
        (accumulated_terms F G y x) := by
  rw [foldl_accumulated_terms]
  exact accumulate_cell_nested F G y x hlay hh1 hw1 hy1 hy2 hx1 hx2 m

/-- A cell outside the border of the returned score map holds the products
with a non-zero weight added one at a time to `-b`, in the order of the loops
(features in forward rows, any arithmetic). -/
theorem detect_cell_fold {α : Type} [Inhabited α] [Add α] [Mul α] [Neg α] [OfNat α 2]
    [Zero α] [DecidableEq α]
    (F G : PyArrayObject α) (b : α) (hv : Valid F G) (hlay : ForwardRows F)
    (hh : 1 ≤ G.dimensions 0 ∧ G.dimensions 0 ≤ F.dimensions 0)
    (hw : 1 ≤ G.dimensions 1 ∧ G.dimensions 1 ≤ F.dimensions 1)
    (y x : Nat)
    (hy : top_pad G.dimensions ≤ y ∧
      (y : Int) < (F.dimensions 0 : Int) - bottom_pad G.dimensions)
    (hx : left_pad G.dimensions ≤ x ∧
      (x : Int) < (F.dimensions 1 : Int) - right_pad G.dimensions) :
    ∃ S, (detect F G b).ret = some S ∧
      S.get2 y x = List.foldl (fun acc term => acc + term) (-b) (accumulated_terms F G y x) := by
  have htp := tdiv_pad_bounds (G.dimensions 0) hh.1
  have hlp := tdiv_pad_bounds (G.dimensions 1) hw.1
  have etp : top_pad G.dimensions = Int.tdiv ((G.dimensions 0 : Int) - 1) 2 := rfl
  have elp : left_pad G.dimensions = Int.tdiv ((G.dimensions 1 : Int) - 1) 2 := rfl
  have ebp : bottom_pad G.dimensions = (G.dimensions 0 : Int) - 1 - top_pad G.dimensions := rfl
  have erp : right_pad G.dimensions = (G.dimensions 1 : Int) - 1 - left_pad G.dimensions := rfl
  rw [← etp] at htp
  rw [← elp] at hlp
  rw [detect_of_valid F G b hv]
  refine ⟨_, rfl, ?_⟩
  show load _ (PyArray_GETPTR2
    (PyArray_SimpleNew2 (F.dimensions 0) (F.dimensions 1) : PyArrayObject α) y x) = _
  rw [invalidate_edges_inner G _ _ _ y x hy.1 hy.2 hx.1 hx.2 (by omega),
    accumulate_cell_fold F G y x hlay hh.1 hw.1 hy.1 (by omega) hx.1 (by omega),
    zero_out_cell _ _ b _ y x (by omega) (by omega)]

/-! ## Sums of ones in single precision -/

/-- The correlation formula on forward rows, in exact arithmetic: for features
`F` (`H x W x 32`) laid out in forward rows, a filter `G` (`h x w x 32`) with
`1 <= h <= H` and `1 <= w <= W` and a bias `b`, every cell `(y, x)` with
`top_pad <= y <= top_pad + H - h` and `left_pad <= x <= left_pad + W - w` of
the score map returned by `detect` holds the sum over `i < h`, `j < w`,
`l < 32` of `G[i,j,l] * F[y+i-top_pad, x+j-left_pad, l]`, minus `b`. -/
theorem detect_correlation_forward_rows {α : Type} [Inhabited α] [CommRing α] [DecidableEq α]
    (F G : PyArrayObject α) (b : α) (hv : Valid F G) (hlay : ForwardRows F)
    (hh : 1 ≤ G.dimensions 0 ∧ G.dimensions 0 ≤ F.dimensions 0)
    (hw : 1 ≤ G.dimensions 1 ∧ G.dimensions 1 ≤ F.dimensions 1)
    (y x : Nat)
    (hy : top_pad G.dimensions ≤ y ∧
      (y : Int) ≤ top_pad G.dimensions + F.dimensions 0 - G.dimensions 0)
    (hx : left_pad G.dimensions ≤ x ∧
      (x : Int) ≤ left_pad G.dimensions + F.dimensions 1 - G.dimensions 1) :
    ∃ S, (detect F G b).ret = some S ∧
      S.get2 y x =
        (∑ i ∈ Finset.range (G.dimensions 0), ∑ j ∈ Finset.range (G.dimensions 1),
          ∑ l ∈ Finset.range 32,
            G.get3 i j l * F.get3 ((y : Int) + i - top_pad G.dimensions)
              ((x : Int) + j - left_pad G.dimensions) l) - b := by
  have htp := tdiv_pad_bounds (G.dimensions 0) hh.1
  have hlp := tdiv_pad_bounds (G.dimensions 1) hw.1
  have etp : top_pad G.dimensions = Int.tdiv ((G.dimensions 0 : Int) - 1) 2 := rfl
  have elp : left_pad G.dimensions = Int.tdiv ((G.dimensions 1 : Int) - 1) 2 := rfl
  have ebp : bottom_pad G.dimensions = (G.dimensions 0 : Int) - 1 - top_pad G.dimensions := rfl
  have erp : right_pad G.dimensions = (G.dimensions 1 : Int) - 1 - left_pad G.dimensions := rfl
  rw [← etp] at htp
  rw [← elp] at hlp
  obtain ⟨S, hS, hval⟩ := detect_inner_cell F G b hv y x hy.1 (by omega) hx.1 (by omega)
    (by omega) (by omega)
  refine ⟨S, hS, ?_⟩
  rw [hval, contribution_cell F G y x hlay hh.1 hw.1 hy.1 hy.2 hx.1 hx.2]
  rw [Finset.sum_comm]
  have : ∀ i ∈ Finset.range (G.dimensions 0),
      (∑ l ∈ Finset.range 32, ∑ j ∈ Finset.range (G.dimensions 1),
        G.get3 i j l * F.get3 ((y : Int) + i - top_pad G.dimensions)
          ((x : Int) + j - left_pad G.dimensions) l)
      = ∑ j ∈ Finset.range (G.dimensions 1), ∑ l ∈ Finset.range 32,
        G.get3 i j l * F.get3 ((y : Int) + i - top_pad G.dimensions)
          ((x : Int) + j - left_pad G.dimensions) l := fun i _ => Finset.sum_comm
  rw [Finset.sum_congr rfl this]
  ring

set_option maxRecDepth 20000 in
/-- C1, evaluated at the reversed view `reversedFeatures` (axis-1 stride
`-128`, logical row `21, 11, 1` in channel `0`) with the `1 x 2 x 32` filter
`pairFilter` (weights `1` and `100` in channel `0`) and bias `0`: the input
passes the six checks, `1 <= h <= H` and `1 <= w <= W`, the cell `(0, 0)` lies
in the valid region, the correlation sum of the claim there is
`1 * 21 + 100 * 11 = 1121`, and the cell of the returned score map holds
`2131`. -/
theorem detect_reversed_view_breaks_correlation :
    Valid reversedFeatures pairFilter ∧
    (1 ≤ pairFilter.dimensions 0 ∧ pairFilter.dimensions 0 ≤ reversedFeatures.dimensions 0) ∧
    (1 ≤ pairFilter.dimensions 1 ∧ pairFilter.dimensions 1 ≤ reversedFeatures.dimensions 1) ∧
    (top_pad pairFilter.dimensions ≤ 0 ∧
      (0 : Int) ≤ top_pad pairFilter.dimensions + reversedFeatures.dimensions 0
        - pairFilter.dimensions 0) ∧
    (left_pad pairFilter.dimensions ≤ 0 ∧
      (0 : Int) ≤ left_pad pairFilter.dimensions + reversedFeatures.dimensions 1
        - pairFilter.dimensions 1) ∧
    (∑ i ∈ Finset.range (pairFilter.dimensions 0), ∑ j ∈ Finset.range (pairFilter.dimensions 1),
      ∑ l ∈ Finset.range 32,
        pairFilter.get3 i j l * reversedFeatures.get3 ((0 : Int) + i - top_pad pairFilter.dimensions)
          ((0 : Int) + j - left_pad pairFilter.dimensions) l) - 0 = 1121 ∧
    ∃ S, (detect reversedFeatures pairFilter 0).ret = some S ∧ S.get2 0 0 = 2131 := by
  refine ⟨by decide, by decide, by decide, by decide, by decide, by decide, ?_⟩
  rw [detect_of_valid reversedFeatures pairFilter 0 (by decide)]
  exact ⟨_, rfl, by decide⟩

/-- C3. For every input that passes the checks, the returned score map is
two-dimensional with exactly the extents `(H, W)` of the features' first two
axes, whatever the filter's size and the bias. -/
theorem detect_output_dims {α : Type} [Inhabited α] [Add α] [Mul α] [Neg α] [OfNat α 2]
    [Zero α] [DecidableEq α]
    (F G : PyArrayObject α) (b : α) (hv : Valid F G) :
    ∃ S, (detect F G b).ret = some S ∧ S.nd = 2 ∧
      S.dimensions 0 = F.dimensions 0 ∧ S.dimensions 1 = F.dimensions 1 := by
  rw [detect_of_valid F G b hv]
  exact ⟨_, rfl, rfl, rfl, rfl⟩

/-- Witness of C3 on the sample input: the score map is `3 x 4`. -/
theorem detect_output_dims_witness :
    ∃ S, (detect featuresSample filterSample 7).ret = some S ∧ S.nd = 2 ∧
      S.dimensions 0 = 3 ∧ S.dimensions 1 = 4 :=
  detect_output_dims featuresSample filterSample 7 (by decide)

/-- The outcome of a call whose filter has at least one axis: `detect` returns
a score map exactly when all six checks hold; when one fails it returns `NULL`
with an error set and has allocated nothing, and when all hold it has
allocated exactly the one array it returns. -/
theorem detect_returns_iff_valid_of_axes {α : Type} [Inhabited α] [Add α] [Mul α] [Neg α]
    [OfNat α 2] [Zero α] [DecidableEq α]
    (F G : PyArrayObject α) (b : α) (hnd : G.nd ≠ 0) :
    ((∃ S, (detect F G b).ret = some S) ↔
      (F.nd = 3 ∧ G.nd = 3 ∧ F.type_num = NPY_FLOAT ∧ G.type_num = NPY_FLOAT ∧
        F.dimensions 2 = 32 ∧ G.dimensions 2 = 32)) ∧
    ((Valid F G ∧ (detect F G b).err = none ∧ (detect F G b).allocations = 1) ∨
      (¬ Valid F G ∧ (detect F G b).ret = none ∧ (∃ e, (detect F G b).err = some e) ∧
        (detect F G b).allocations = 0)) := by
  by_cases hv : Valid F G
  · refine ⟨⟨fun _ => hv, fun _ => ?_⟩, Or.inl ⟨hv, ?_, ?_⟩⟩ <;>
      rw [detect_of_valid F G b hv]
    exact ⟨_, rfl⟩
  · have hfail : (detect F G b).ret = none ∧ (∃ e, (detect F G b).err = some e) ∧
        (detect F G b).allocations = 0 := by
      unfold Valid at hv
      unfold detect
      rw [if_neg hnd]
      split_ifs <;> first
        | exact ⟨rfl, ⟨_, rfl⟩, rfl⟩
        | (exfalso; apply hv; simp_all)
    refine ⟨⟨?_, fun h => absurd h hv⟩, Or.inr ⟨hv, hfail⟩⟩
    rintro ⟨S, hS⟩
    rw [hfail.1] at hS
    exact absurd hS (by simp)

/-- C4, evaluated at the sample features with the filter `scalarFilter`, a
`float` array without axes: the features pass their three checks and the
filter violates the rank check, yet the call does not fail with the rank
error: line 16 reads `filter_dims[0]` through a `NULL` pointer before any
check and the process ends there, with no error set and nothing returned. -/
theorem detect_scalar_filter_crashes :
    (featuresSample.nd = 3 ∧ featuresSample.type_num = NPY_FLOAT ∧
      featuresSample.dimensions 2 = 32) ∧
    (scalarFilter.nd = 0 ∧ scalarFilter.type_num = NPY_FLOAT) ∧
    ¬ Check.filterNdim.holds featuresSample scalarFilter ∧
    (detect featuresSample scalarFilter 0).crashed = true ∧
    (detect featuresSample scalarFilter 0).err = none ∧
    (detect featuresSample scalarFilter 0).err ≠ some Check.filterNdim.signal ∧
    (detect featuresSample scalarFilter 0).ret.isNone = true :=
  ⟨by decide, by decide, by decide, by decide, by decide, by decide, rfl⟩

/-- C5 as stated fails: features supplied as 64-bit floats violate the
element-type check alone, features with `16` channels violate the channel
check alone, and both calls fail with one and the same exception class,
`PyExc_TypeError`; the two failures differ in their message only. -/
theorem detect_failures_share_one_class :
    (¬ Check.featuresType.holds doubleFeatures filterSample ∧
      ∀ c : Check, c ≠ Check.featuresType → c.holds doubleFeatures filterSample) ∧
    (¬ Check.featuresChannels.holds narrowFeatures filterSample ∧
      ∀ c : Check, c ≠ Check.featuresChannels → c.holds narrowFeatures filterSample) ∧
    (detect doubleFeatures filterSample 0).err.map PyErr.exc = some PyExc.PyExc_TypeError ∧
    (detect narrowFeatures filterSample 0).err.map PyErr.exc = some PyExc.PyExc_TypeError ∧
    (detect doubleFeatures filterSample 0).err.map PyErr.exc
      = (detect narrowFeatures filterSample 0).err.map PyErr.exc ∧
    (detect doubleFeatures filterSample 0).err.map PyErr.message
      ≠ (detect narrowFeatures filterSample 0).err.map PyErr.message :=
  ⟨⟨by decide, by intro c h; cases c <;> first | exact absurd rfl h | decide⟩,
    ⟨by decide, by intro c h; cases c <;> first | exact absurd rfl h | decide⟩,
    by decide, by decide, by decide, by decide⟩

/-- C5, amended. When exactly one of the six checks is violated, and the filter
has at least one axis, `detect` returns `NULL` with the signal of that check: a
`TypeError` whose message belongs to that check and differs from the messages
of the other five checks. The exception class is `PyExc_TypeError` for all six
checks. -/
theorem detect_single_violation_message {α : Type} [Inhabited α] [Add α] [Mul α] [Neg α]
    [OfNat α 2] [Zero α] [DecidableEq α] (F G : PyArrayObject α) (b : α) (c : Check)
    (hnd : G.nd ≠ 0)
    (hc : ¬ c.holds F G) (hothers : ∀ c' : Check, c' ≠ c → c'.holds F G) :
    (detect F G b).ret = none ∧ (detect F G b).crashed = false ∧
    (detect F G b).allocations = 0 ∧
    (detect F G b).err = some c.signal ∧
    (detect F G b).err.map PyErr.exc = some PyExc.PyExc_TypeError ∧
    (∀ c' : Check, c'.signal.exc = PyExc.PyExc_TypeError) ∧
    (∀ c' : Check, c' ≠ c → c'.signal.message ≠ c.signal.message) := by
  have hd := detect_first_failure F G b c hnd hc (fun c' hlt => hothers c' (by
    intro h; rw [h] at hlt; exact Nat.lt_irrefl _ hlt))
  have herr : (detect F G b).err = some c.signal := by rw [hd]; cases c <;> rfl
  refine ⟨by rw [hd]; rfl, by rw [hd]; rfl, by rw [hd]; rfl, herr,
    by rw [herr]; cases c <;> rfl, fun c' => by cases c' <;> rfl, ?_⟩
  intro c' hne
  cases c <;> cases c' <;> first | exact absurd rfl hne | decide

/-- Witness of C5 as amended: features supplied as 64-bit floats fail with the
element-type message, and features with `16` channels against a filter with
`32` fail with the channel message. -/
theorem detect_single_violation_message_witness :
    ((detect doubleFeatures filterSample 0).ret = none ∧
      (detect doubleFeatures filterSample 0).crashed = false ∧
      (detect doubleFeatures filterSample 0).allocations = 0 ∧
      (detect doubleFeatures filterSample 0).err =
        some ⟨PyExc.PyExc_TypeError, "Features must be single precision floating point."⟩ ∧
      (detect doubleFeatures filterSample 0).err.map PyErr.exc = some PyExc.PyExc_TypeError ∧
      (∀ c' : Check, c'.signal.exc = PyExc.PyExc_TypeError) ∧
      (∀ c' : Check, c' ≠ Check.featuresType →
        c'.signal.message ≠ Check.featuresType.signal.message)) ∧
    ((detect narrowFeatures filterSample 0).ret = none ∧
      (detect narrowFeatures filterSample 0).crashed = false ∧
      (detect narrowFeatures filterSample 0).allocations = 0 ∧
      (detect narrowFeatures filterSample 0).err =
        some ⟨PyExc.PyExc_TypeError, "features' feature dimsionality should be 32."⟩ ∧
      (detect narrowFeatures filterSample 0).err.map PyErr.exc = some PyExc.PyExc_TypeError ∧
      (∀ c' : Check, c'.signal.exc = PyExc.PyExc_TypeError) ∧
      (∀ c' : Check, c' ≠ Check.featuresChannels →
        c'.signal.message ≠ Check.featuresChannels.signal.message)) :=
  ⟨detect_single_violation_message doubleFeatures filterSample 0 Check.featuresType
      (by decide) (by decide)
      (by intro c' h; cases c' <;> first | exact absurd rfl h | decide),
    detect_single_violation_message narrowFeatures filterSample 0 Check.featuresChannels
      (by decide) (by decide)
      (by intro c' h; cases c' <;> first | exact absurd rfl h | decide)⟩

set_option maxRecDepth 20000 in
/-- C7 as stated fails. In `float` arithmetic, with the `1 x 1 x 32` features
`largeFirstFeatures` (`2^24` in channel `0`, `1` in channels `1..3`), the
all-ones `1 x 1 x 32` filter and bias `0.0`, the cell `(0, 0)` holds
`16777216` where the sum of the products is `16777219`. And on the reversed
view `reversedFeatures` (logical row `21, 11, 1` in channel `0`) with the
`1 x 1 x 32` filter of weight `1` in channel `0`, the cell `(0, 0)` holds `41`
where the sum of the products is `21`. -/
theorem detect_one_by_one_fails :
    (Valid (toSingle largeFirstFeatures) (toSingle onesPointFilter) ∧
      ((toSingle onesPointFilter).dimensions 0 = 1 ∧
        (toSingle onesPointFilter).dimensions 1 = 1) ∧
      (∑ l ∈ Finset.range 32, onesPointFilter.get3 0 0 l * largeFirstFeatures.get3 0 0 l)
        = 16777219 ∧
      ∃ S, (detect (toSingle largeFirstFeatures) (toSingle onesPointFilter) 0).ret = some S ∧
        S.get2 0 0 = Single.finite 16777216) ∧
    (Valid reversedFeatures unitWeightFilter ∧
      (unitWeightFilter.dimensions 0 = 1 ∧ unitWeightFilter.dimensions 1 = 1) ∧
      (∑ l ∈ Finset.range 32, unitWeightFilter.get3 0 0 l * reversedFeatures.get3 0 0 l) = 21 ∧
      ∃ S, (detect reversedFeatures unitWeightFilter 0).ret = some S ∧ S.get2 0 0 = 41) := by
  refine ⟨⟨by decide, by decide, by decide, ?_⟩, ⟨by decide, by decide, by decide, ?_⟩⟩
  · rw [detect_of_valid (toSingle largeFirstFeatures) (toSingle onesPointFilter) 0 (by decide)]
    exact ⟨_, rfl, by decide⟩
  · rw [detect_of_valid reversedFeatures unitWeightFilter 0 (by decide)]
    exact ⟨_, rfl, by decide⟩

/-- C7, amended. For a `1 x 1 x 32` filter and bias `0`: all four pads are `0`
and the invalidation loops write nothing; in exact arithmetic and for
features in forward rows, every cell `(y, x)` of the result holds the sum over
`l < 32` of `G[0,0,l] * F[y,x,l]`. -/
theorem detect_one_by_one {α : Type} [Inhabited α] [CommRing α] [DecidableEq α]
    (F G : PyArrayObject α)
    (hv : Valid F G) (hlay : ForwardRows F)
    (hh : G.dimensions 0 = 1) (hw : G.dimensions 1 = 1) :
    (top_pad G.dimensions = 0 ∧ bottom_pad G.dimensions = 0 ∧
      left_pad G.dimensions = 0 ∧ right_pad G.dimensions = 0) ∧
    (∀ (S : PyArrayObject α) (m : Mem α), invalidate_edges G S m = m) ∧
    (∀ y x : Nat, y < F.dimensions 0 → x < F.dimensions 1 →
      ∃ S, (detect F G 0).ret = some S ∧
        S.get2 y x = ∑ l ∈ Finset.range 32, G.get3 0 0 l * F.get3 y x l) := by
  have e1 : top_pad G.dimensions = 0 := by simp [top_pad, hh]
  have e2 : bottom_pad G.dimensions = 0 := by simp [bottom_pad, top_pad, hh]
  have e3 : left_pad G.dimensions = 0 := by simp [left_pad, hw]
  have e4 : right_pad G.dimensions = 0 := by simp [right_pad, left_pad, hw]
  refine ⟨⟨e1, e2, e3, e4⟩, ?_, ?_⟩
  · intro S m
    unfold invalidate_edges
    simp only [e1, e2, e3, e4]
    rw [forLoop_empty 0 0 _ (le_refl _),
      forLoop_empty ((S.dimensions 0 : Int) - 0) (S.dimensions 0) _ (by omega),
      forLoop_id _ _ _ (fun a s =>
        forLoop_empty ((S.dimensions 1 : Int) - 0) (S.dimensions 1) _ (by omega) s),
      forLoop_id _ _ _ (fun a s => forLoop_empty 0 0 _ (le_refl _) s)]
  · intro y x hy hx
    obtain ⟨S, hS, hval⟩ := detect_inner_cell F G 0 hv y x (by omega) (by omega) (by omega)
      (by omega) hy hx
    refine ⟨S, hS, ?_⟩
    rw [hval, contribution_cell F G y x hlay (by omega) (by omega) (by omega) (by omega)
      (by omega) (by omega)]
    simp [hh, hw, e1, e3]

/-- Witness of C7 as amended, on the sample features with the `1 x 1 x 32` filter `pointFilter`. -/
theorem detect_one_by_one_witness :
    (top_pad pointFilter.dimensions = 0 ∧ bottom_pad pointFilter.dimensions = 0 ∧
      left_pad pointFilter.dimensions = 0 ∧ right_pad pointFilter.dimensions = 0) ∧
    (∀ (S : PyArrayObject Int) (m : Mem Int), invalidate_edges pointFilter S m = m) ∧
    (∀ y x : Nat, y < featuresSample.dimensions 0 → x < featuresSample.dimensions 1 →
      ∃ S, (detect featuresSample pointFilter 0).ret = some S ∧
        S.get2 y x = ∑ l ∈ Finset.range 32, pointFilter.get3 0 0 l * featuresSample.get3 y x l) :=
  detect_one_by_one featuresSample pointFilter (by decide) (by decide) (by decide) (by decide)

set_option maxRecDepth 20000 in
/-- C9 as stated fails. In `float` arithmetic, with the `1 x 1 x 32` features
`threeFeatures` (`3` in channel `0`), the filter of weight `1` in channel `0`,
`b = 1` and `D = 2^25`: the bias `b + D` is the `float` `2^25`, the cell
`(0, 0)` holds `2` for the bias `b` and `-33554428` for the bias `b + D`, while
lowering `2` by `D` gives `-33554430`, in `float` arithmetic as in exact
arithmetic. -/
theorem detect_bias_shift_fails :
    Valid (toSingle threeFeatures) (toSingle unitWeightFilter) ∧
    ((toSingle unitWeightFilter).dimensions 0 = 1 ∧ (toSingle threeFeatures).dimensions 0 = 1 ∧
      (toSingle unitWeightFilter).dimensions 1 = 1 ∧ (toSingle threeFeatures).dimensions 1 = 1) ∧
    ¬ ((0 : Int) < top_pad (toSingle unitWeightFilter).dimensions ∨
        ((toSingle threeFeatures).dimensions 0 : Int)
          - bottom_pad (toSingle unitWeightFilter).dimensions ≤ 0 ∨
        (0 : Int) < left_pad (toSingle unitWeightFilter).dimensions ∨
        ((toSingle threeFeatures).dimensions 1 : Int)
          - right_pad (toSingle unitWeightFilter).dimensions ≤ 0) ∧
    Single.finite 1 + Single.finite 33554432 = Single.finite 33554432 ∧
    (∃ S S', (detect (toSingle threeFeatures) (toSingle unitWeightFilter)
          (Single.finite 1)).ret = some S ∧
      (detect (toSingle threeFeatures) (toSingle unitWeightFilter)
          (Single.finite 1 + Single.finite 33554432)).ret = some S' ∧
      S.get2 0 0 = Single.finite 2 ∧
      S'.get2 0 0 = Single.finite (-33554428) ∧
      S.get2 0 0 - Single.finite 33554432 = Single.finite (-33554430) ∧
      S'.get2 0 0 ≠ S.get2 0 0 - Single.finite 33554432) ∧
    (2 : Int) - 33554432 = -33554430 := by
  refine ⟨by decide, by decide, by decide, by decide, ?_, by decide⟩
  rw [detect_of_valid (toSingle threeFeatures) (toSingle unitWeightFilter) _ (by decide),
    detect_of_valid (toSingle threeFeatures) (toSingle unitWeightFilter) _ (by decide)]
  exact ⟨_, _, rfl, rfl, by decide, by decide, by decide, by decide⟩

/-- C9, amended. In exact arithmetic: with `1 <= h <= H` and `1 <= w <= W`,
raising the bias from `b` to `b + D` lowers every non-border cell of the
result by exactly `D`. -/
theorem detect_bias_shift {α : Type} [Inhabited α] [CommRing α] [DecidableEq α]
    (F G : PyArrayObject α)
    (b D : α) (hv : Valid F G)
    (hh : 1 ≤ G.dimensions 0 ∧ G.dimensions 0 ≤ F.dimensions 0)
    (hw : 1 ≤ G.dimensions 1 ∧ G.dimensions 1 ≤ F.dimensions 1)
    (y x : Nat)
    (hy : top_pad G.dimensions ≤ y ∧
      (y : Int) < (F.dimensions 0 : Int) - bottom_pad G.dimensions)
    (hx : left_pad G.dimensions ≤ x ∧
      (x : Int) < (F.dimensions 1 : Int) - right_pad G.dimensions) :
    ∃ S S', (detect F G b).ret = some S ∧ (detect F G (b + D)).ret = some S' ∧
      S'.get2 y x = S.get2 y x - D := by
  have htp := tdiv_pad_bounds (G.dimensions 0) hh.1
  have hlp := tdiv_pad_bounds (G.dimensions 1) hw.1
  have etp : top_pad G.dimensions = Int.tdiv ((G.dimensions 0 : Int) - 1) 2 := rfl
  have elp : left_pad G.dimensions = Int.tdiv ((G.dimensions 1 : Int) - 1) 2 := rfl
  have ebp : bottom_pad G.dimensions = (G.dimensions 0 : Int) - 1 - top_pad G.dimensions := rfl
  have erp : right_pad G.dimensions = (G.dimensions 1 : Int) - 1 - left_pad G.dimensions := rfl
  rw [← etp] at htp
  rw [← elp] at hlp
  obtain ⟨S, hS, hval⟩ := detect_inner_cell F G b hv y x hy.1 hy.2 hx.1 hx.2
    (by omega) (by omega)
  obtain ⟨S', hS', hval'⟩ := detect_inner_cell F G (b + D) hv y x hy.1 hy.2 hx.1 hx.2
    (by omega) (by omega)
  refine ⟨S, S', hS, hS', ?_⟩
  rw [hval, hval']
  ring

/-- Witness of C9 as amended, at cell `(1, 2)` of the sample input: bias `7` raised by `5`. -/
theorem detect_bias_shift_witness :
    ∃ S S', (detect featuresSample filterSample 7).ret = some S ∧
      (detect featuresSample filterSample (7 + 5)).ret = some S' ∧
      S'.get2 ((1 : Nat) : Int) ((2 : Nat) : Int)
        = S.get2 ((1 : Nat) : Int) ((2 : Nat) : Int) - 5 :=
  detect_bias_shift featuresSample filterSample 7 5 (by decide) (by decide) (by decide) 1 2
    (by decide) (by decide)

/-- C10. For a filter with `h >= 1` rows and `w >= 1` columns the pads are
`top_pad = (h-1)/2` and `left_pad = (w-1)/2` (rounded down),
`top_pad + bottom_pad = h - 1`, `left_pad + right_pad = w - 1`, and the second
pad exceeds the first by `0` for an odd extent and by `1` for an even one. -/
theorem pads_split (filter_dims : Nat → Nat) (hh : 1 ≤ filter_dims 0) (hw : 1 ≤ filter_dims 1) :
    (top_pad filter_dims = (((filter_dims 0 - 1) / 2 : Nat) : Int) ∧
      top_pad filter_dims + bottom_pad filter_dims = (filter_dims 0 : Int) - 1 ∧
      bottom_pad filter_dims - top_pad filter_dims = (if filter_dims 0 % 2 = 1 then 0 else 1)) ∧
    (left_pad filter_dims = (((filter_dims 1 - 1) / 2 : Nat) : Int) ∧
      left_pad filter_dims + right_pad filter_dims = (filter_dims 1 : Int) - 1 ∧
      right_pad filter_dims - left_pad filter_dims = (if filter_dims 1 % 2 = 1 then 0 else 1)) := by
  unfold bottom_pad right_pad top_pad left_pad
  rw [Int.tdiv_eq_ediv (by omega) (by norm_num), Int.tdiv_eq_ediv (by omega) (by norm_num)]
  constructor
  · split_ifs <;> omega
  · split_ifs <;> omega

/-- Witness of C10: a `4 x 3` filter has pads `1, 2` (top, bottom) and `1, 1`
(left, right). -/
theorem pads_split_witness :
    (top_pad filterShape43 = (((filterShape43 0 - 1) / 2 : Nat) : Int) ∧
      top_pad filterShape43 + bottom_pad filterShape43 = (filterShape43 0 : Int) - 1 ∧
      bottom_pad filterShape43 - top_pad filterShape43
        = (if filterShape43 0 % 2 = 1 then 0 else 1)) ∧
    (left_pad filterShape43 = (((filterShape43 1 - 1) / 2 : Nat) : Int) ∧
      left_pad filterShape43 + right_pad filterShape43 = (filterShape43 1 : Int) - 1 ∧
      right_pad filterShape43 - left_pad filterShape43
        = (if filterShape43 1 % 2 = 1 then 0 else 1)) :=
  pads_split filterShape43 (by decide) (by decide)

/-- C17, evaluated at the two-dimensional features `flatFeatures` with the
filter `scalarFilter`, a `float` array without axes: the rank check of the
features and the rank check of the filter are both violated, the first of them
in the order of the source is the check of the features, and the call does not
report it: line 16 reads `filter_dims[0]` through a `NULL` pointer before any
check and the process ends there with no error set. -/
theorem detect_two_violations_crashes :
    ¬ Check.featuresNdim.holds flatFeatures scalarFilter ∧
    ¬ Check.filterNdim.holds flatFeatures scalarFilter ∧
    (∀ c : Check, c.position < Check.featuresNdim.position → c.holds flatFeatures scalarFilter) ∧
    (detect flatFeatures scalarFilter 0).crashed = true ∧
    (detect flatFeatures scalarFilter 0).err = none ∧
    (detect flatFeatures scalarFilter 0).err ≠ some Check.featuresNdim.signal :=
  ⟨by decide, by decide, by intro c h; exact absurd h (Nat.not_lt_zero _), by decide, by decide,
    by decide⟩

set_option maxRecDepth 20000 in
/-- C18 as stated fails. In `float` arithmetic, with the `2 x 2 x 32` features
`largeLastFeatures` (`F[1,1,0] = 2^24`, `F[0,0,1] = F[0,0,2] = F[0,0,3] = 1`),
the all-ones `2 x 2 x 32` filter and bias `0.0`, the one non-border cell
`(0, 0)` holds `16777216`, where the sum of the products is `16777219`, and
where the same products added in `float` arithmetic with `i` outermost, then
`j`, then `l` give `16777220`. -/
theorem detect_full_size_fails :
    Valid (toSingle largeLastFeatures) (toSingle onesSquareFilter) ∧
    ((toSingle onesSquareFilter).dimensions 0 = (toSingle largeLastFeatures).dimensions 0 ∧
      (toSingle onesSquareFilter).dimensions 1 = (toSingle largeLastFeatures).dimensions 1 ∧
      1 ≤ (toSingle largeLastFeatures).dimensions 0 ∧
      1 ≤ (toSingle largeLastFeatures).dimensions 1) ∧
    (top_pad (toSingle onesSquareFilter).dimensions = 0 ∧
      left_pad (toSingle onesSquareFilter).dimensions = 0) ∧
    (∑ i ∈ Finset.range 2, ∑ j ∈ Finset.range 2, ∑ l ∈ Finset.range 32,
      onesSquareFilter.get3 i j l * largeLastFeatures.get3 i j l) - 0 = 16777219 ∧
    List.foldl (fun acc term => acc + term) (Single.finite 0)
      ((List.range 2).flatMap (fun (i : Nat) => (List.range 2).flatMap (fun (j : Nat) =>
        (List.range 32).map (fun (l : Nat) =>
          (toSingle onesSquareFilter).get3 i j l * (toSingle largeLastFeatures).get3 i j l))))
      = Single.finite 16777220 ∧
    ∃ S, (detect (toSingle largeLastFeatures) (toSingle onesSquareFilter) 0).ret = some S ∧
      S.get2 0 0 = Single.finite 16777216 := by
  refine ⟨by decide, by decide, by decide, by decide, by decide, ?_⟩
  rw [detect_of_valid (toSingle largeLastFeatures) (toSingle onesSquareFilter) 0 (by decide)]
  exact ⟨_, rfl, by decide⟩

/-- C18, amended. In exact arithmetic: for a filter of the spatial size of the
features (`h = H >= 1`,
`w = W >= 1`) exactly one cell of the result lies outside the border, the cell
`(top_pad, left_pad)`; it holds the sum over `i < H`, `j < W`, `l < 32` of
`G[i,j,l] * F[i,j,l]`, minus `b`, and every other cell holds `-2`. -/
theorem detect_full_size_filter {α : Type} [Inhabited α] [CommRing α] [DecidableEq α]
    (F G : PyArrayObject α)
    (b : α) (hv : Valid F G)
    (hh : G.dimensions 0 = F.dimensions 0) (hw : G.dimensions 1 = F.dimensions 1)
    (hH : 1 ≤ F.dimensions 0) (hW : 1 ≤ F.dimensions 1) :
    (∀ y x : Nat, y < F.dimensions 0 → x < F.dimensions 1 →
      (¬ ((y : Int) < top_pad G.dimensions ∨
          (F.dimensions 0 : Int) - bottom_pad G.dimensions ≤ y ∨
          (x : Int) < left_pad G.dimensions ∨
          (F.dimensions 1 : Int) - right_pad G.dimensions ≤ x) ↔
        ((y : Int) = top_pad G.dimensions ∧ (x : Int) = left_pad G.dimensions))) ∧
    (∃ S, (detect F G b).ret = some S ∧
      S.get2 (top_pad G.dimensions) (left_pad G.dimensions) =
        (∑ i ∈ Finset.range (F.dimensions 0), ∑ j ∈ Finset.range (F.dimensions 1),
          ∑ l ∈ Finset.range 32, G.get3 i j l * F.get3 i j l) - b ∧
      (∀ y x : Nat, y < F.dimensions 0 → x < F.dimensions 1 →
        ¬ ((y : Int) = top_pad G.dimensions ∧ (x : Int) = left_pad G.dimensions) →
        S.get2 y x = -2)) := by
  have htp := tdiv_pad_bounds (G.dimensions 0) (by omega)
  have hlp := tdiv_pad_bounds (G.dimensions 1) (by omega)
  have etp : top_pad G.dimensions = Int.tdiv ((G.dimensions 0 : Int) - 1) 2 := rfl
  have elp : left_pad G.dimensions = Int.tdiv ((G.dimensions 1 : Int) - 1) 2 := rfl
  have ebp : bottom_pad G.dimensions = (G.dimensions 0 : Int) - 1 - top_pad G.dimensions := rfl
  have erp : right_pad G.dimensions = (G.dimensions 1 : Int) - 1 - left_pad G.dimensions := rfl
  rw [← etp] at htp
  rw [← elp] at hlp
  have hiff : ∀ y x : Nat, y < F.dimensions 0 → x < F.dimensions 1 →
      (¬ ((y : Int) < top_pad G.dimensions ∨
          (F.dimensions 0 : Int) - bottom_pad G.dimensions ≤ y ∨
          (x : Int) < left_pad G.dimensions ∨
          (F.dimensions 1 : Int) - right_pad G.dimensions ≤ x) ↔
        ((y : Int) = top_pad G.dimensions ∧ (x : Int) = left_pad G.dimensions)) := by
    intro y x _ _
    constructor
    · intro hno
      constructor <;> omega
    · rintro ⟨h1, h2⟩
      omega
  refine ⟨hiff, ?_⟩
  have ey : (((top_pad G.dimensions).toNat : Nat) : Int) = top_pad G.dimensions := by omega
  have ex : (((left_pad G.dimensions).toNat : Nat) : Int) = left_pad G.dimensions := by omega
  obtain ⟨S, hS, hval⟩ := detect_inner_cell F G b hv (top_pad G.dimensions).toNat
    (left_pad G.dimensions).toNat (by omega) (by omega) (by omega) (by omega) (by omega)
    (by omega)
  rw [ey, ex] at hval
  refine ⟨S, hS, ?_, ?_⟩
  · rw [hval, contribution_full_size F G hh hw, hh, hw, Finset.sum_comm]
    have : ∀ i ∈ Finset.range (F.dimensions 0),
        (∑ l ∈ Finset.range 32, ∑ j ∈ Finset.range (F.dimensions 1),
          G.get3 i j l * F.get3 i j l)
        = ∑ j ∈ Finset.range (F.dimensions 1), ∑ l ∈ Finset.range 32,
          G.get3 i j l * F.get3 i j l := fun i _ => Finset.sum_comm
    rw [Finset.sum_congr rfl this]
    ring
  · intro y x hy hx hne
    obtain ⟨S', hS', hval'⟩ := detect_border_cell F G b hv y x hy hx (by
      by_contra hno
      exact hne ((hiff y x hy hx).1 hno))
    rw [ret_unique hS hS'] at hval'
    exact hval'

/-- Witness of C18 as amended: the `3 x 4 x 32` filter `fullFilter` on the `3 x 4 x 32`
sample features; the one cell outside the border is `(1, 1)`. -/
theorem detect_full_size_filter_witness :
    (∀ y x : Nat, y < featuresSample.dimensions 0 → x < featuresSample.dimensions 1 →
      (¬ ((y : Int) < top_pad fullFilter.dimensions ∨
          (featuresSample.dimensions 0 : Int) - bottom_pad fullFilter.dimensions ≤ y ∨
          (x : Int) < left_pad fullFilter.dimensions ∨
          (featuresSample.dimensions 1 : Int) - right_pad fullFilter.dimensions ≤ x) ↔
        ((y : Int) = top_pad fullFilter.dimensions ∧
          (x : Int) = left_pad fullFilter.dimensions))) ∧
    (∃ S, (detect featuresSample fullFilter 7).ret = some S ∧
      S.get2 (top_pad fullFilter.dimensions) (left_pad fullFilter.dimensions) =
        (∑ i ∈ Finset.range (featuresSample.dimensions 0),
          ∑ j ∈ Finset.range (featuresSample.dimensions 1),
            ∑ l ∈ Finset.range 32, fullFilter.get3 i j l * featuresSample.get3 i j l) - 7 ∧
      (∀ y x : Nat, y < featuresSample.dimensions 0 → x < featuresSample.dimensions 1 →
        ¬ ((y : Int) = top_pad fullFilter.dimensions ∧
          (x : Int) = left_pad fullFilter.dimensions) →
        S.get2 y x = -2)) :=
  detect_full_size_filter featuresSample fullFilter 7 (by decide) (by decide) (by decide)
    (by decide) (by decide)

/-- C19. For features `F` and filters `G1`, `G2` of one size `h x w x 32`, and
for the filter `G12` of that size holding their sum: at every non-border cell
the result for `G12` with bias `b1 + b2` is the sum of the results for `G1`
with `b1` and `G2` with `b2`, and at every border cell all three results hold
`-2`. This holds for every filter size, in particular for `1 <= h <= H` and
`1 <= w <= W`. -/
theorem detect_additive {α : Type} [Inhabited α] [CommRing α] [DecidableEq α]
    (F G1 G2 G12 : PyArrayObject α) (b1 b2 : α)
    (hv1 : Valid F G1) (hv2 : Valid F G2) (hv12 : Valid F G12)
    (hd1 : G1.dimensions 0 = G12.dimensions 0 ∧ G1.dimensions 1 = G12.dimensions 1)
    (hd2 : G2.dimensions 0 = G12.dimensions 0 ∧ G2.dimensions 1 = G12.dimensions 1)
    (hsum : ∀ i j l : Nat, i < G12.dimensions 0 → j < G12.dimensions 1 → l < 32 →
      G12.get3 i j l = G1.get3 i j l + G2.get3 i j l)
    (y x : Nat) (hy : y < F.dimensions 0) (hx : x < F.dimensions 1) :
    ∃ S1 S2 S12, (detect F G1 b1).ret = some S1 ∧ (detect F G2 b2).ret = some S2 ∧
      (detect F G12 (b1 + b2)).ret = some S12 ∧
      (¬ ((y : Int) < top_pad G12.dimensions ∨
          (F.dimensions 0 : Int) - bottom_pad G12.dimensions ≤ y ∨
          (x : Int) < left_pad G12.dimensions ∨
          (F.dimensions 1 : Int) - right_pad G12.dimensions ≤ x) →
        S12.get2 y x = S1.get2 y x + S2.get2 y x) ∧
      (((y : Int) < top_pad G12.dimensions ∨
          (F.dimensions 0 : Int) - bottom_pad G12.dimensions ≤ y ∨
          (x : Int) < left_pad G12.dimensions ∨
          (F.dimensions 1 : Int) - right_pad G12.dimensions ≤ x) →
        S1.get2 y x = -2 ∧ S2.get2 y x = -2 ∧ S12.get2 y x = -2) := by
  have p1 : top_pad G1.dimensions = top_pad G12.dimensions := by unfold top_pad; rw [hd1.1]
  have p2 : bottom_pad G1.dimensions = bottom_pad G12.dimensions := by
    unfold bottom_pad top_pad; rw [hd1.1]
  have p3 : left_pad G1.dimensions = left_pad G12.dimensions := by unfold left_pad; rw [hd1.2]
  have p4 : right_pad G1.dimensions = right_pad G12.dimensions := by
    unfold right_pad left_pad; rw [hd1.2]
  have r1 : top_pad G2.dimensions = top_pad G12.dimensions := by unfold top_pad; rw [hd2.1]
  have r2 : bottom_pad G2.dimensions = bottom_pad G12.dimensions := by
    unfold bottom_pad top_pad; rw [hd2.1]
  have r3 : left_pad G2.dimensions = left_pad G12.dimensions := by unfold left_pad; rw [hd2.2]
  have r4 : right_pad G2.dimensions = right_pad G12.dimensions := by
    unfold right_pad left_pad; rw [hd2.2]
  by_cases hb : (y : Int) < top_pad G12.dimensions ∨
      (F.dimensions 0 : Int) - bottom_pad G12.dimensions ≤ y ∨
      (x : Int) < left_pad G12.dimensions ∨
      (F.dimensions 1 : Int) - right_pad G12.dimensions ≤ x
  · obtain ⟨S1, hS1, v1⟩ := detect_border_cell F G1 b1 hv1 y x hy hx (by
      rw [p1, p2, p3, p4]; exact hb)
    obtain ⟨S2, hS2, v2⟩ := detect_border_cell F G2 b2 hv2 y x hy hx (by
      rw [r1, r2, r3, r4]; exact hb)
    obtain ⟨S12, hS12, v12⟩ := detect_border_cell F G12 (b1 + b2) hv12 y x hy hx hb
    exact ⟨S1, S2, S12, hS1, hS2, hS12, fun hno => absurd hb hno, fun _ => ⟨v1, v2, v12⟩⟩
  · have hy1 : top_pad G12.dimensions ≤ y := by omega
    have hy2 : (y : Int) < (F.dimensions 0 : Int) - bottom_pad G12.dimensions := by omega
    have hx1 : left_pad G12.dimensions ≤ x := by omega
    have hx2 : (x : Int) < (F.dimensions 1 : Int) - right_pad G12.dimensions := by omega
    obtain ⟨S1, hS1, v1⟩ := detect_inner_cell F G1 b1 hv1 y x (by rw [p1]; exact hy1)
      (by rw [p2]; exact hy2) (by rw [p3]; exact hx1) (by rw [p4]; exact hx2) hy hx
    obtain ⟨S2, hS2, v2⟩ := detect_inner_cell F G2 b2 hv2 y x (by rw [r1]; exact hy1)
      (by rw [r2]; exact hy2) (by rw [r3]; exact hx1) (by rw [r4]; exact hx2) hy hx
    obtain ⟨S12, hS12, v12⟩ := detect_inner_cell F G12 (b1 + b2) hv12 y x hy1 hy2 hx1 hx2 hy hx
    refine ⟨S1, S2, S12, hS1, hS2, hS12, fun _ => ?_, fun h => absurd h hb⟩
    rw [v1, v2, v12, contribution_add F G1 G2 G12 _ _ hd1 hd2 hsum]
    ring

/-- Witness of C19 at the non-border cell `(1, 2)` of the sample features, with
the filters `filterSample`, `filterSample2` and biases `7`, `5`. -/
theorem detect_additive_witness :
    ∃ S1 S2 S12, (detect featuresSample filterSample 7).ret = some S1 ∧
      (detect featuresSample filterSample2 5).ret = some S2 ∧
      (detect featuresSample filterSampleSum (7 + 5)).ret = some S12 ∧
      S12.get2 ((1 : Nat) : Int) ((2 : Nat) : Int)
        = S1.get2 ((1 : Nat) : Int) ((2 : Nat) : Int)
          + S2.get2 ((1 : Nat) : Int) ((2 : Nat) : Int) := by
  obtain ⟨S1, S2, S12, h1, h2, h12, hin, -⟩ :=
    detect_additive featuresSample filterSample filterSample2 filterSampleSum 7 5
      (by decide) (by decide) (by decide) (by decide) (by decide)
      (fun i j l _ _ _ => rfl) 1 2 (by decide) (by decide)
  exact ⟨S1, S2, S12, h1, h2, h12, hin (by decide)⟩

/-- C11, evaluated at features of extents `1 x 1 x 32` with a filter of extents
`4 x 1 x 32`: the input passes the six checks, `bottom_pad` is `2`, and the
bottom invalidation loop, which starts at row `H - bottom_pad = -1`, writes
`-2` at `S[-1, 0]`, four bytes before the start of the score map. That offset
is not the offset of any cell of the `1 x 1` map. -/
theorem detect_deep_filter_writes_outside :
    Valid unitFeatures deepFilter ∧
    (∃ S, (detect unitFeatures deepFilter 0).ret = some S ∧
      S.data = load (detect_writes unitFeatures deepFilter 0)) ∧
    bottom_pad deepFilter.dimensions = 2 ∧
    PyArray_GETPTR2 (PyArray_SimpleNew2 1 1 : PyArrayObject Int) (-1) 0 = -4 ∧
    ((-4 : Int), (-2 : Int)) ∈ detect_writes unitFeatures deepFilter 0 ∧
    ¬ InBounds2 (PyArray_SimpleNew2 1 1 : PyArrayObject Int) (-4) :=
  ⟨by decide, detect_data_eq_writes unitFeatures deepFilter 0 (by decide), by decide,
    by decide, by decide, by decide⟩

set_option maxRecDepth 20000 in
/-- C12, evaluated at the reversed view `reversedFeatures` (axis-1 stride
`-128`) and its contiguous copy, with the `1 x 2 x 32` filter `pairFilter` and
bias `0`: the two arrays hold the same logical elements (rows `21, 11, 1` in
channel `0`), yet the score map of the view holds `2131, 1121` in columns
`0, 1` where the score map of the contiguous copy holds `1121, 111`. -/
theorem detect_reversed_view_differs :
    Valid reversedFeatures pairFilter ∧
    (∀ i : Nat, i < 1 → ∀ j : Nat, j < 3 → ∀ l : Nat, l < 32 →
      (contiguousCopy reversedFeatures).get3 i j l = reversedFeatures.get3 i j l) ∧
    (∃ S, (detect reversedFeatures pairFilter 0).ret = some S ∧
      S.get2 0 0 = 2131 ∧ S.get2 0 1 = 1121) ∧
    (∃ S, (detect (contiguousCopy reversedFeatures) pairFilter 0).ret = some S ∧
      S.get2 0 0 = 1121 ∧ S.get2 0 1 = 111) := by
  refine ⟨by decide, by decide, ?_, ?_⟩
  · rw [detect_of_valid reversedFeatures pairFilter 0 (by decide)]
    exact ⟨_, rfl, by decide, by decide⟩
  · rw [detect_of_valid (contiguousCopy reversedFeatures) pairFilter 0 (by decide)]
    exact ⟨_, rfl, by decide, by decide⟩

set_option maxRecDepth 20000 in
/-- C16, evaluated at the reversed view `reversedFeatures` (extents
`1 x 3 x 32`, axis-1 stride `-128`) with the `1 x 2 x 32` filter `pairFilter`:
the input passes the six checks with `1 <= h <= H` and `1 <= w <= W`, and the
first strip that `cblas_saxpy` reads starts at byte offset `128` from the data
pointer, the offset of `F[0, -1, 0]`: it is not the offset of any element
`F[r, c, l]` with `r < 1`, `c < 3`, `l < 32`. -/
theorem detect_reversed_view_reads_outside :
    Valid reversedFeatures pairFilter ∧
    (1 ≤ pairFilter.dimensions 0 ∧ pairFilter.dimensions 0 ≤ reversedFeatures.dimensions 0) ∧
    (1 ≤ pairFilter.dimensions 1 ∧ pairFilter.dimensions 1 ≤ reversedFeatures.dimensions 1) ∧
    (accumulate_reads reversedFeatures pairFilter []).take 2
      = [Access.filterRead 0, Access.featuresRead 128] ∧
    Access.featuresRead 128 ∈ accumulate_reads reversedFeatures pairFilter [] ∧
    PyArray_GETPTR3 reversedFeatures 0 (-1) 0 = 128 ∧
    ¬ InBounds3 reversedFeatures 128 :=
  ⟨by decide, by decide, by decide, by decide, by decide, by decide, by decide⟩

set_option maxRecDepth 20000 in
/-- C14 as stated fails. With the all-zero `3 x 3 x 32` filter `zeroFilter` on
the `5 x 5 x 32` features `onesFeatures` (which passes the checks with
`1 <= h <= H`, `1 <= w <= W`), every `cblas_saxpy` returns at once and the
accumulation writes no cell: the log after it is the log before it, although
the cell `(2, 2)` lies outside the border. And on the reversed view
`reversedFeatures` with the filter `pairFilter` the cell `(0, 0)`, which is
outside the border, holds `2131`, neither `-2` nor the correlation sum `1121`. -/
theorem accumulate_zero_filter_writes_nothing :
    Valid onesFeatures zeroFilter ∧
    (1 ≤ zeroFilter.dimensions 0 ∧ zeroFilter.dimensions 0 ≤ onesFeatures.dimensions 0) ∧
    (1 ≤ zeroFilter.dimensions 1 ∧ zeroFilter.dimensions 1 ≤ onesFeatures.dimensions 1) ∧
    ¬ ((2 : Int) < top_pad zeroFilter.dimensions ∨
        (onesFeatures.dimensions 0 : Int) - bottom_pad zeroFilter.dimensions ≤ 2 ∨
        (2 : Int) < left_pad zeroFilter.dimensions ∨
        (onesFeatures.dimensions 1 : Int) - right_pad zeroFilter.dimensions ≤ 2) ∧
    accumulate onesFeatures zeroFilter (PyArray_SimpleNew2 5 5)
        (zero_out (PyArray_SimpleNew2 5 5) 0 [])
      = zero_out (PyArray_SimpleNew2 5 5) 0 [] ∧
    (∀ v : Int, (PyArray_GETPTR2 (PyArray_SimpleNew2 5 5 : PyArrayObject Int) 2 2, v)
      ∈ accumulate onesFeatures zeroFilter (PyArray_SimpleNew2 5 5) [] → False) ∧
    (¬ ((0 : Int) < top_pad pairFilter.dimensions ∨
        (reversedFeatures.dimensions 0 : Int) - bottom_pad pairFilter.dimensions ≤ 0 ∨
        (0 : Int) < left_pad pairFilter.dimensions ∨
        (reversedFeatures.dimensions 1 : Int) - right_pad pairFilter.dimensions ≤ 0) ∧
      (∑ i ∈ Finset.range (pairFilter.dimensions 0),
        ∑ j ∈ Finset.range (pairFilter.dimensions 1), ∑ l ∈ Finset.range 32,
          pairFilter.get3 i j l * reversedFeatures.get3 ((0 : Int) + i - top_pad pairFilter.dimensions)
            ((0 : Int) + j - left_pad pairFilter.dimensions) l) - 0 = 1121 ∧
      ∃ S, (detect reversedFeatures pairFilter 0).ret = some S ∧ S.get2 0 0 = 2131) := by
  refine ⟨by decide, by decide, by decide, by decide, by decide, ?_, by decide, by decide, ?_⟩
  · intro v hv
    have e : accumulate onesFeatures zeroFilter (PyArray_SimpleNew2 5 5) ([] : Mem Int) = [] := by
      decide
    rw [e] at hv
    exact absurd hv (List.not_mem_nil _)
  · rw [detect_of_valid reversedFeatures pairFilter 0 (by decide)]
    exact ⟨_, rfl, by decide⟩

/-- C14, amended. For every input that passes the checks with `1 <= h <= H`
and `1 <= w <= W`: the accumulation writes no border cell; if some weight of
the filter is not zero it writes exactly the cells of rows
`top_pad..H-bottom_pad-1` and columns `left_pad..W-right_pad-1`, which are
`(H-h+1) x (W-w+1)` cells, and if all weights are zero it writes nothing;
every border cell still holds `-b` when the invalidation starts; and in the
result every border cell holds `-2` and, for features in forward rows, every
other cell holds the fully accumulated score: `-b` with every product
`G[i,j,l] * F[y+i-top_pad, x+j-left_pad, l]` of a non-zero weight added to it,
in the order of the loops. Nothing is assumed of the arithmetic. -/
theorem detect_accumulation_region {α : Type} [Inhabited α] [Add α] [Mul α] [Neg α] [OfNat α 2]
    [Zero α] [DecidableEq α]
    (F G : PyArrayObject α) (b : α) (hv : Valid F G)
    (hh : 1 ≤ G.dimensions 0 ∧ G.dimensions 0 ≤ F.dimensions 0)
    (hw : 1 ≤ G.dimensions 1 ∧ G.dimensions 1 ≤ F.dimensions 1) :
    Appends (accumulate F G (PyArray_SimpleNew2 (F.dimensions 0) (F.dimensions 1)))
      (fun p => (∃ i j l : Nat, i < G.dimensions 0 ∧ j < G.dimensions 1 ∧ l < 32 ∧
          G.get3 i j l ≠ 0) ∧
        ∃ y x : Nat, top_pad G.dimensions ≤ y ∧
        (y : Int) < (F.dimensions 0 : Int) - bottom_pad G.dimensions ∧
        left_pad G.dimensions ≤ x ∧
        (x : Int) < (F.dimensions 1 : Int) - right_pad G.dimensions ∧
        p = PyArray_GETPTR2
          (PyArray_SimpleNew2 (F.dimensions 0) (F.dimensions 1) : PyArrayObject α) y x) ∧
    ((F.dimensions 0 : Int) - bottom_pad G.dimensions - top_pad G.dimensions
        = (F.dimensions 0 : Int) - G.dimensions 0 + 1 ∧
      (F.dimensions 1 : Int) - right_pad G.dimensions - left_pad G.dimensions
        = (F.dimensions 1 : Int) - G.dimensions 1 + 1) ∧
    (∀ y x : Nat, y < F.dimensions 0 → x < F.dimensions 1 →
      ((y : Int) < top_pad G.dimensions ∨
        (F.dimensions 0 : Int) - bottom_pad G.dimensions ≤ y ∨
        (x : Int) < left_pad G.dimensions ∨
        (F.dimensions 1 : Int) - right_pad G.dimensions ≤ x) →
      load (accumulate F G (PyArray_SimpleNew2 (F.dimensions 0) (F.dimensions 1))
          (zero_out (PyArray_SimpleNew2 (F.dimensions 0) (F.dimensions 1)) b []))
        (PyArray_GETPTR2
          (PyArray_SimpleNew2 (F.dimensions 0) (F.dimensions 1) : PyArrayObject α) y x)
        = -b) ∧
    (∀ y x : Nat, y < F.dimensions 0 → x < F.dimensions 1 →
      ∃ S, (detect F G b).ret = some S ∧
        (((y : Int) < top_pad G.dimensions ∨
            (F.dimensions 0 : Int) - bottom_pad G.dimensions ≤ y ∨
            (x : Int) < left_pad G.dimensions ∨
            (F.dimensions 1 : Int) - right_pad G.dimensions ≤ x) → S.get2 y x = -2) ∧
        (¬ ((y : Int) < top_pad G.dimensions ∨
            (F.dimensions 0 : Int) - bottom_pad G.dimensions ≤ y ∨
            (x : Int) < left_pad G.dimensions ∨
            (F.dimensions 1 : Int) - right_pad G.dimensions ≤ x) → ForwardRows F →
          S.get2 y x = List.foldl (fun acc term => acc + term) (-b)
            (accumulated_terms F G y x))) := by
  have ebp : bottom_pad G.dimensions = (G.dimensions 0 : Int) - 1 - top_pad G.dimensions := rfl
  have erp : right_pad G.dimensions = (G.dimensions 1 : Int) - 1 - left_pad G.dimensions := rfl
  refine ⟨appends_accumulate_fresh F G hh hw, ⟨by omega, by omega⟩, ?_, ?_⟩
  · intro y x hy hx hb
    rw [load_of_appends _ _ (appends_accumulate_fresh F G hh hw) _ _ (by
      rintro ⟨-, y', x', h1, h2, h3, h4, e⟩
      exact border_cell_not_inner G _ _ y x hx hb hw.1 ⟨y', x', h1, h2, h3, h4, e⟩)]
    exact zero_out_cell _ _ b _ y x hy hx
  · intro y x hy hx
    by_cases hb : (y : Int) < top_pad G.dimensions ∨
        (F.dimensions 0 : Int) - bottom_pad G.dimensions ≤ y ∨
        (x : Int) < left_pad G.dimensions ∨
        (F.dimensions 1 : Int) - right_pad G.dimensions ≤ x
    · obtain ⟨S, hS, hval⟩ := detect_border_cell F G b hv y x hy hx hb
      exact ⟨S, hS, fun _ => hval, fun hno => absurd hb hno⟩
    · by_cases hlay : ForwardRows F
      · obtain ⟨S, hS, hval⟩ := detect_cell_fold F G b hv hlay hh hw y x
          ⟨by omega, by omega⟩ ⟨by omega, by omega⟩
        exact ⟨S, hS, fun h => absurd h hb, fun _ _ => hval⟩
      · rw [detect_of_valid F G b hv]
        exact ⟨_, rfl, fun h => absurd h hb, fun _ h => absurd h hlay⟩

/-- Witness of C14 as amended, on the sample input with bias `7`, whose filter
has the non-zero weight `G[0,1,0] = 2`: the written cells are those of rows
`0..1` and columns `1..2`, the border cell `(2, 0)` holds `-7` before the
invalidation and `-2` after it, and the cell `(0, 1)` holds `1123`. -/
theorem detect_accumulation_region_witness :
    (∀ p : Int, (∃ v, (p, v) ∈ accumulate featuresSample filterSample (PyArray_SimpleNew2 3 4) [])
      ↔ ∃ y x : Nat, top_pad filterSample.dimensions ≤ y ∧
        (y : Int) < (3 : Int) - bottom_pad filterSample.dimensions ∧
        left_pad filterSample.dimensions ≤ x ∧
        (x : Int) < (4 : Int) - right_pad filterSample.dimensions ∧
        p = PyArray_GETPTR2 (PyArray_SimpleNew2 3 4 : PyArrayObject Int) y x) ∧
    load (accumulate featuresSample filterSample (PyArray_SimpleNew2 3 4)
        (zero_out (PyArray_SimpleNew2 3 4) 7 []))
      (PyArray_GETPTR2 (PyArray_SimpleNew2 3 4 : PyArrayObject Int) ((2 : Nat) : Int)
        ((0 : Nat) : Int)) = -7 ∧
    (∃ S, (detect featuresSample filterSample 7).ret = some S ∧
      S.get2 ((2 : Nat) : Int) ((0 : Nat) : Int) = -2) ∧
    (∃ S, (detect featuresSample filterSample 7).ret = some S ∧
      S.get2 ((0 : Nat) : Int) ((1 : Nat) : Int) = 1123) := by
  obtain ⟨hset, -, hbefore, hres⟩ :=
    detect_accumulation_region featuresSample filterSample 7 (by decide)
      (by decide) (by decide)
  refine ⟨?_, hbefore 2 0 (by decide) (by decide) (by decide), ?_, ?_⟩
  · intro p
    obtain ⟨added, e, hA⟩ := hset []
    have e2 : accumulate featuresSample filterSample (PyArray_SimpleNew2 3 4) [] = added :=
      e.trans (List.append_nil added)
    rw [e2]
    refine (hA p).trans ⟨fun h => h.2, fun h => ⟨⟨0, 1, 0, by decide, by decide, by decide, ?_⟩, h⟩⟩
    decide
  · obtain ⟨S, hS, hborder, -⟩ := hres 2 0 (by decide) (by decide)
    exact ⟨S, hS, hborder (by decide)⟩
  · obtain ⟨S, hS, -, hinner⟩ := hres 0 1 (by decide) (by decide)
    exact ⟨S, hS, (hinner (by decide) (by decide)).trans (by decide)⟩

set_option maxRecDepth 20000 in
/-- C15 as stated fails. In `float` arithmetic, with `+Inf` in channel `0` of the
`1 x 1 x 32` features `infiniteFeatures` and the filter `secondChannelFilter`
(weight `1.0` in channel `1`, `0.0` elsewhere), the left fold of the claim
over all products starts with `0.0 * Inf` and is NaN, while the code, whose
`cblas_saxpy` returns at once for a zero weight, leaves `5.0` in the cell.
And on the reversed view `reversedFeatures` with the filter `pairFilter` the
fold of the claim at cell `(0, 0)` is `1121` while the cell holds `2131`. -/
theorem detect_accumulation_skips_zero_weights :
    Valid infiniteFeatures secondChannelFilter ∧
    (1 ≤ secondChannelFilter.dimensions 0 ∧
      secondChannelFilter.dimensions 0 ≤ infiniteFeatures.dimensions 0) ∧
    (1 ≤ secondChannelFilter.dimensions 1 ∧
      secondChannelFilter.dimensions 1 ≤ infiniteFeatures.dimensions 1) ∧
    List.foldl (fun acc term => acc + term) (-(0 : Single))
      (correlation_terms infiniteFeatures secondChannelFilter 0 0) = Single.nan ∧
    (∃ S, (detect infiniteFeatures secondChannelFilter 0).ret = some S ∧
      S.get2 0 0 = Single.finite 5) ∧
    Valid reversedFeatures pairFilter ∧
    List.foldl (fun acc term => acc + term) (-(0 : Int))
      (correlation_terms reversedFeatures pairFilter 0 0) = 1121 ∧
    (∃ S, (detect reversedFeatures pairFilter 0).ret = some S ∧ S.get2 0 0 = 2131) := by
  refine ⟨by decide, by decide, by decide, by decide, ?_, by decide, by decide, ?_⟩
  · rw [detect_of_valid infiniteFeatures secondChannelFilter 0 (by decide)]
    exact ⟨_, rfl, by decide⟩
  · rw [detect_of_valid reversedFeatures pairFilter 0 (by decide)]
    exact ⟨_, rfl, by decide⟩

/-- C15, amended. For every input that passes the checks with `1 <= h <= H`
and `1 <= w <= W`, features in forward rows, and every non-border cell
`(y, x)`: the cell holds the left fold of `acc + term` from `-b` over the
products `G[i,j,l] * F[y+i-top_pad, x+j-left_pad, l]` whose weight `G[i,j,l]`
is not zero, taken with `l` ascending outermost, then `i` ascending, then `j`
ascending. Nothing is assumed of the addition and the multiplication of the
element type. -/
theorem detect_accumulation_order {α : Type} [Inhabited α] [Add α] [Mul α] [Neg α] [OfNat α 2]
    [Zero α] [DecidableEq α]
    (F G : PyArrayObject α) (b : α) (hv : Valid F G) (hlay : ForwardRows F)
    (hh : 1 ≤ G.dimensions 0 ∧ G.dimensions 0 ≤ F.dimensions 0)
    (hw : 1 ≤ G.dimensions 1 ∧ G.dimensions 1 ≤ F.dimensions 1)
    (y x : Nat)
    (hy : top_pad G.dimensions ≤ y ∧
      (y : Int) < (F.dimensions 0 : Int) - bottom_pad G.dimensions)
    (hx : left_pad G.dimensions ≤ x ∧
      (x : Int) < (F.dimensions 1 : Int) - right_pad G.dimensions) :
    ∃ S, (detect F G b).ret = some S ∧
      S.get2 y x = List.foldl (fun acc term => acc + term) (-b) (accumulated_terms F G y x) :=
  detect_cell_fold F G b hv hlay hh hw y x hy hx

/-- Witness of C15 as amended, at cell `(0, 1)` of the sample input with bias
`7`: the fold over the five products with a non-zero weight gives `1123`. -/
theorem detect_accumulation_order_witness :
    accumulated_terms featuresSample filterSample ((0 : Nat) : Int) ((1 : Nat) : Int)
      = [2 * 10, 4 * 20, 1 * 100, 3 * 110, 5 * 120] ∧
    ∃ S, (detect featuresSample filterSample 7).ret = some S ∧
      S.get2 ((0 : Nat) : Int) ((1 : Nat) : Int)
        = List.foldl (fun acc term => acc + term) (-7)
            (accumulated_terms featuresSample filterSample ((0 : Nat) : Int) ((1 : Nat) : Int)) :=
  ⟨by decide,
    detect_accumulation_order featuresSample filterSample 7 (by decide) (by decide) (by decide)
      (by decide) 0 1 (by decide) (by decide)⟩

end Pydro
